import Mathlib

/-!
Shallow embedding of the minimal-region discovery engine of
`sapn/regions/regions.py` together with the parts of
`sapn/objects/sa_transition_system.py` it consumes.

Modelling conventions:

* State and event names are Python strings: opaque identifiers that are
  comparable for equality and orderable lexicographically.  They are modelled
  by a type `α` with a decidable linear order (`Nat` in concrete runs).
* A Python dict `{state: multiplicity}` is modelled as an association list
  `List (α × Nat)`; real dicts have pairwise distinct keys, which appears as a
  `Nodup` hypothesis where it matters.  `dict(sorted(d.items()))` is modelled
  by an insertion sort along the lexicographic order on `(key, value)` pairs,
  which is how Python's `sorted` compares the item tuples.
* A function that raises an uncaught exception is modelled with
  `Except String`; a function that catches its own exception and returns
  `None` (resp. `False`) is modelled by `Option` (resp. by the recovered
  boolean), mirroring the `try/except` structure of the source.
* The two `while` loops of the v1 driver are modelled with an explicit fuel
  parameter; running out of fuel, like any uncaught runtime error inside the
  loop, yields `none`.  Theorems about the driver are therefore stated for
  every execution that returns a value.
* `transition_system.get_all_state_transitions()` returns a Python set of
  `(from, label, to)` tuples; sets are modelled as lists, fixing one
  iteration order.
-/

namespace SAPN

variable {α : Type} [LinearOrder α]

/-- A marking / multiset: the Python dict mapping state names to
multiplicities, as an association list. -/
abbrev MS (α : Type) := List (α × Nat)

/-- The read-only view of `SATransitionSystem` that the region engine uses:
state names, event names and the set of `(from, label, to)` state
transitions. -/
structure SATransitionSystem (α : Type) where
  states : List α
  events : List α
  transitions : List (α × α × α)

/-- `get_all_state_transitions`: the set of `(from_state, event, to_state)`
triples. -/
def get_all_state_transitions (ts : SATransitionSystem α) : List (α × α × α) :=
  ts.transitions

/-- `get_state_transition_by_event`: all state transitions labelled with the
given event. -/
def get_state_transition_by_event (event_name : α) (ts : SATransitionSystem α) :
    List (α × α × α) :=
  ts.transitions.filter (fun t => decide (t.2.1 = event_name))

/-- Python `multiset[k]` / `multiset.get(k)`.  The default `0` is never
reached in the places the engine uses it, because every lookup happens under
a matching-domain guard. -/
def mget (m : MS α) (k : α) : Nat :=
  (List.lookup k m).getD 0

/-- The key view `multiset.keys()`. -/
def keysOf (m : MS α) : List α :=
  m.map Prod.fst

/-- The value view `multiset.values()` (in key order, as in Python). -/
def dict_values (m : MS α) : List Nat :=
  m.map Prod.snd

/-- Python `xs == ys` on two key sets: equality as sets. -/
def keySetEq (xs ys : List α) : Bool :=
  xs.all (fun x => decide (x ∈ ys)) && ys.all (fun y => decide (y ∈ xs))

/-- Python `a.keys() == b.keys()`. -/
def keysMatch (a b : MS α) : Bool :=
  keySetEq (keysOf a) (keysOf b)

/-- Python `a == b` on two dicts: equal key sets and equal value at every
key. -/
def dictEqB (a b : MS α) : Bool :=
  keysMatch a b && a.all (fun p => decide (mget b p.1 = p.2))

/-- Python `d[k] = v` for a key already present: update in place, keep the
position.  (The engine only ever assigns to keys that are present.) -/
def dictSet (m : MS α) (k : α) (v : Nat) : MS α :=
  m.map (fun p => if p.1 = k then (p.1, v) else p)

/-- The order in which Python's `sorted` lists the items of a marking:
lexicographic on the `(key, value)` tuple. -/
def pairLe (p q : α × Nat) : Prop :=
  p.1 < q.1 ∨ (p.1 = q.1 ∧ p.2 ≤ q.2)

instance pairLe_decidableRel : DecidableRel (pairLe (α := α)) := fun p q => by
  unfold pairLe
  exact inferInstance

instance pairLe_isTotal : IsTotal (α × Nat) pairLe := by
  constructor
  intro a b
  rcases lt_trichotomy a.1 b.1 with h | h | h
  · exact Or.inl (Or.inl h)
  · rcases Nat.le_total a.2 b.2 with h2 | h2
    · exact Or.inl (Or.inr ⟨h, h2⟩)
    · exact Or.inr (Or.inr ⟨h.symm, h2⟩)
  · exact Or.inr (Or.inl h)

instance pairLe_isTrans : IsTrans (α × Nat) pairLe := by
  constructor
  intro a b c hab hbc
  rcases hab with h | ⟨he, hv⟩
  · rcases hbc with h2 | ⟨he2, _⟩
    · exact Or.inl (h.trans h2)
    · exact Or.inl (he2 ▸ h)
  · rcases hbc with h2 | ⟨he2, hv2⟩
    · exact Or.inl (he ▸ h2)
    · exact Or.inr ⟨he.trans he2, hv.trans hv2⟩

instance pairLe_isAntisymm : IsAntisymm (α × Nat) pairLe := by
  constructor
  intro a b hab hba
  rcases hab with h | ⟨he, hv⟩
  · rcases hba with h2 | ⟨he2, _⟩
    · exact absurd h2 (lt_asymm h)
    · exact absurd h (he2 ▸ lt_irrefl _)
  · rcases hba with h2 | ⟨he2, hv2⟩
    · exact absurd h2 (he ▸ lt_irrefl _)
    · exact Prod.ext he (Nat.le_antisymm hv hv2)

/-- Python `dict(sorted(d.items()))`. -/
def dict_sorted (m : MS α) : MS α :=
  List.insertionSort pairLe m

/-- Python `max(l)` over a nonempty list; `none` models the `ValueError`
raised on an empty one. -/
def list_max {β : Type} [LinearOrder β] : List β → Option β
  | [] => none
  | x :: xs =>
    match list_max xs with
    | none => some x
    | some v => some (max x v)

/-- Python `min(l)` over a nonempty list; `none` models the `ValueError`
raised on an empty one. -/
def list_min {β : Type} [LinearOrder β] : List β → Option β
  | [] => none
  | x :: xs =>
    match list_min xs with
    | none => some x
    | some v => some (min x v)

/-- `get_power_of_multiset`: `max(list(multiset.values()))`.  On an empty
domain the source raises `ValueError`, modelled by `none`. -/
def get_power_of_multiset (m : MS α) : Option Nat :=
  list_max (dict_values m)

/-- `is_trivial`: every multiplicity is at least 1. -/
def is_trivial (m : MS α) : Bool :=
  (dict_values m).all (fun v => decide (1 ≤ v))

/-- `is_subset` before its `try/except`: raises on mismatching key sets,
otherwise checks the pointwise bound. -/
def is_subset_body (a b : MS α) : Except String Bool :=
  if keysMatch a b then
    Except.ok (a.all (fun p => decide (p.2 ≤ mget b p.1)))
  else
    Except.error "Warning: input multisets mismatch!"

/-- `is_subset`: the `except ValueError` branch prints the warning and
returns `False`. -/
def is_subset (a b : MS α) : Bool :=
  match is_subset_body a b with
  | Except.ok v => v
  | Except.error _ => false

/-- `get_union_of_multisets` before its `try/except`: pointwise max over the
keys of the first argument. -/
def get_union_of_multisets_body (a b : MS α) : Except String (MS α) :=
  if keysMatch a b then
    Except.ok (a.map (fun p => (p.1, max p.2 (mget b p.1))))
  else
    Except.error "Multiset mismatch"

/-- `get_union_of_multisets`: the `except ValueError` branch prints a warning
and returns `None`. -/
def get_union_of_multisets (a b : MS α) : Option (MS α) :=
  (get_union_of_multisets_body a b).toOption

/-- `get_intersection_of_multisets` before its `try/except`: pointwise min. -/
def get_intersection_of_multisets_body (a b : MS α) : Except String (MS α) :=
  if keysMatch a b then
    Except.ok (a.map (fun p => (p.1, min p.2 (mget b p.1))))
  else
    Except.error "Multisets mismatch!"

/-- `get_intersection_of_multisets`: catches and returns `None`. -/
def get_intersection_of_multisets (a b : MS α) : Option (MS α) :=
  (get_intersection_of_multisets_body a b).toOption

/-- `get_difference_of_multisets` before its `try/except`:
`max(0, a[k] - b[k])`, which is exactly truncated subtraction on `Nat`. -/
def get_difference_of_multisets_body (a b : MS α) : Except String (MS α) :=
  if keysMatch a b then
    Except.ok (a.map (fun p => (p.1, p.2 - mget b p.1)))
  else
    Except.error "Multisets mismatch!"

/-- `get_difference_of_multisets`: catches and returns `None`. -/
def get_difference_of_multisets (a b : MS α) : Option (MS α) :=
  (get_difference_of_multisets_body a b).toOption

/-- `get_excitation_set_by_event`: all states mapped to 0, then the source
state of every arc labelled with the event set to 1, finally sorted by state
name.  `none` models the `None` returned for an unknown event. -/
def get_excitation_set_by_event (event_name : α) (ts : SATransitionSystem α) :
    Option (MS α) :=
  if decide (event_name ∈ ts.events) then
    let init : MS α := ts.states.map (fun s => (s, 0))
    let filled := (get_all_state_transitions ts).foldl
      (fun acc st => if st.2.1 = event_name then dictSet acc st.1 1 else acc) init
    some (dict_sorted filled)
  else
    none

/-- `get_switching_set_by_event`: as the excitation set, marking target
states of the event's arcs. -/
def get_switching_set_by_event (event_name : α) (ts : SATransitionSystem α) :
    Option (MS α) :=
  if decide (event_name ∈ ts.events) then
    let init : MS α := ts.states.map (fun s => (s, 0))
    let filled := (get_all_state_transitions ts).foldl
      (fun acc st => if st.2.1 = event_name then dictSet acc st.2.2 1 else acc) init
    some (dict_sorted filled)
  else
    none

/-- `get_candidates`: every excitation set followed by every switching set
(the per-event lookups never fail because they are made for defined
events). -/
def get_candidates (ts : SATransitionSystem α) : List (MS α) :=
  ts.events.filterMap (fun e => get_excitation_set_by_event e ts) ++
    ts.events.filterMap (fun e => get_switching_set_by_event e ts)

/-- `get_gradient_of_event`: the list `[m(to) - m(from)]` over the arcs
labelled with the event, in transition-set order. -/
def get_gradient_of_event (event_name : α) (m : MS α) (ts : SATransitionSystem α) :
    List Int :=
  ((get_all_state_transitions ts).filter (fun st => decide (st.2.1 = event_name))).map
    (fun st => (mget m st.2.2 : Int) - (mget m st.1 : Int))

/-- `get_gradients_for_multisets`: the per-event gradient lists. -/
def get_gradients_for_multisets (m : MS α) (ts : SATransitionSystem α) :
    List (α × List Int) :=
  ts.events.map (fun e => (e, get_gradient_of_event e m ts))

/-- `is_region`: every event's gradient list has exactly one distinct value
(`len(set(gradients[e])) == 1`). -/
def is_region (m : MS α) (ts : SATransitionSystem α) : Bool :=
  (get_gradients_for_multisets m ts).all (fun p => decide (p.2.toFinset.card = 1))

/-- `get_delta_g`: over the arcs of the event leaving `state_name`, the
largest value of `m(to) - m(from) - g`, clamped below by 0; `0` when the
state has no outgoing arc of the event. -/
def get_delta_g (g : Int) (m : MS α) (event_name state_name : α)
    (ts : SATransitionSystem α) : Int :=
  let state_transitions_e := get_state_transition_by_event event_name ts
  let max_values := (state_transitions_e.filter (fun st => decide (st.1 = state_name))).map
    (fun st => (mget m st.2.2 : Int) - (mget m st.1 : Int) - g)
  match list_max max_values with
  | none => 0
  | some v => max 0 v

/-- `get_delta_G`: over the arcs of the event entering `state_name`, the
largest value of `m(from) - m(to) + g`, clamped below by 0; `0` when the
state has no incoming arc of the event. -/
def get_delta_G (g : Int) (m : MS α) (event_name state_name : α)
    (ts : SATransitionSystem α) : Int :=
  let state_transitions_e := get_state_transition_by_event event_name ts
  let max_values := (state_transitions_e.filter (fun st => decide (st.2.2 = state_name))).map
    (fun st => (mget m st.1 : Int) - (mget m st.2.2 : Int) + g)
  match list_max max_values with
  | none => 0
  | some v => max 0 v

/-- `get_multiset_expansion_on_event_by_g`: adds `get_delta_g` to every
multiplicity; the domain guard raises an uncaught `ValueError`.  The deltas
are non-negative by construction, so the `Nat` truncation `toNat` is exact. -/
def get_multiset_expansion_on_event_by_g (g : Int) (event_name : α) (m : MS α)
    (ts : SATransitionSystem α) : Except String (MS α) :=
  if keySetEq (keysOf m) ts.states then
    Except.ok (m.map (fun p => (p.1, p.2 + (get_delta_g g m event_name p.1 ts).toNat)))
  else
    Except.error "ValueError"

/-- `get_multiset_expansion_on_event_by_G`: adds `get_delta_G` to every
multiplicity; the domain guard raises an uncaught `ValueError`. -/
def get_multiset_expansion_on_event_by_G (g : Int) (event_name : α) (m : MS α)
    (ts : SATransitionSystem α) : Except String (MS α) :=
  if keySetEq (keysOf m) ts.states then
    Except.ok (m.map (fun p => (p.1, p.2 + (get_delta_G g m event_name p.1 ts).toNat)))
  else
    Except.error "ValueError"

/-- `int(math.floor((g_min+g_max)/2))`: the floor midpoint. -/
def __get_gradient_for_binary_search (g_min g_max : Int) : Int :=
  Int.fdiv (g_min + g_max) 2

/-- The sort order used on the items of the per-event gradients dict before
illegal events are collected; event keys are distinct, so comparing keys is
enough. -/
def gradLe (p q : α × List Int) : Prop :=
  p.1 ≤ q.1

instance gradLe_decidableRel : DecidableRel (gradLe (α := α)) := fun p q => by
  unfold gradLe
  exact inferInstance

/-- `dict(sorted(gradients.items()))` in `get_illegal_events`. -/
def gradients_sorted (l : List (α × List Int)) : List (α × List Int) :=
  List.insertionSort gradLe l

/-- The scan of `get_illegal_events` over the sorted gradients: events whose
gradient list has one distinct value are skipped, the others contribute
`(e, g_min, g_max, floor_mid)`.  `none` models the `ValueError` that
`min`/`max` raise on an empty gradient list. -/
def __illegal_events_go : List (α × List Int) → Option (List (α × Int × Int × Int))
  | [] => some []
  | p :: rest =>
    if p.2.toFinset.card = 1 then __illegal_events_go rest
    else
      match list_min p.2, list_max p.2, __illegal_events_go rest with
      | some g_min, some g_max, some lst =>
        some ((p.1, g_min, g_max, __get_gradient_for_binary_search g_min g_max) :: lst)
      | _, _, _ => none

/-- `get_illegal_events`: the `(e, g_min, g_max, g_e)` tuples of the events
with a non-singleton gradient set, in sorted event order. -/
def get_illegal_events (m : MS α) (ts : SATransitionSystem α) :
    Option (List (α × Int × Int × Int)) :=
  __illegal_events_go (gradients_sorted (get_gradients_for_multisets m ts))

/-- `__get_event_gradient_for_expansion`: Python `max(tuples_list, key=abs
of the fourth component)`, which returns the first maximal tuple; `none`
models the `ValueError` on an empty list. -/
def __get_event_gradient_for_expansion :
    List (α × Int × Int × Int) → Option (α × Int × Int × Int)
  | [] => none
  | t :: rest =>
    match __get_event_gradient_for_expansion rest with
    | none => some t
    | some b => some (if t.2.2.2.natAbs < b.2.2.2.natAbs then b else t)

/-- `__is_valid_candidate`: power at most `k` and not trivial; `none` models
the `ValueError` of `get_power_of_multiset` on an empty domain. -/
def __is_valid_candidate (k : Int) (m : MS α) : Option Bool :=
  (get_power_of_multiset m).map (fun p => decide (Int.ofNat p ≤ k) && !(is_trivial m))

/-- `__has_subset_of_list`: some listed marking is a subset of the given
one. -/
def __has_subset_of_list (m : MS α) (lst_of_multisets : List (MS α)) : Bool :=
  lst_of_multisets.any (fun x => is_subset x m)

/-- The scan of `__remove_duplicates`: `seen` holds the
`tuple(sorted(d.items()))` canonical forms already produced. -/
def __remove_duplicates_go (seen : List (MS α)) : List (MS α) → List (MS α)
  | [] => []
  | d :: rest =>
    let t := dict_sorted d
    if seen.any (fun s => decide (s = t)) then
      __remove_duplicates_go seen rest
    else
      d :: __remove_duplicates_go (t :: seen) rest

/-- `__remove_duplicates`: keeps the first occurrence of every marking,
comparing by the sorted item list. -/
def __remove_duplicates (list_of_multisets : List (MS α)) : List (MS α) :=
  __remove_duplicates_go [] list_of_multisets

/-- `__remove_supersets`: drops every marking that has a subset among the
other listed markings. -/
def __remove_supersets (list_of_multisets : List (MS α)) : List (MS α) :=
  list_of_multisets.filter (fun m =>
    !(__has_subset_of_list m (list_of_multisets.filter (fun e => !(dictEqB e m)))))

/-- An entry of the `explored_multisets` list of the v1 driver.  The outer
loop appends dicts, the inner expansion appends `list(values)` lists; a
Python `==` between a dict and a list is `False`, so the two kinds never
compare equal. -/
inductive ExpEntry (α : Type) where
  | dict (m : MS α)
  | vals (v : List Nat)
deriving DecidableEq

/-- Membership test `list(r.values()) in explored` of the inner expansion:
only value-list entries can match. -/
def __explored_contains_vals (explored : List (ExpEntry α)) (v : List Nat) : Bool :=
  explored.any (fun e =>
    match e with
    | ExpEntry.dict _ => false
    | ExpEntry.vals w => decide (w = v))

/-- The scan behind Python `min(range(len(l)), key=...)` and `max(...)`:
index, best index and best value so far; `better x bv` decides whether `x`
strictly improves on the best, so the first optimum wins ties. -/
def __first_arg_go (better : Nat → Nat → Bool) : List Nat → Nat → Nat → Nat → Nat
  | [], _, best_i, _ => best_i
  | x :: xs, i, best_i, best_v =>
    if better x best_v then __first_arg_go better xs (i + 1) i x
    else __first_arg_go better xs (i + 1) best_i best_v

/-- `min(range(len(sums)), key=lambda i: sums[i])`: first index of the least
sum. -/
def __first_arg_min (sums : List Nat) : Nat :=
  match sums with
  | [] => 0
  | x :: xs => __first_arg_go (fun a b => decide (a < b)) xs 1 0 x

/-- `max(range(len(sums)), key=lambda i: sums[i])`: first index of the
largest sum. -/
def __first_arg_max (sums : List Nat) : Nat :=
  match sums with
  | [] => 0
  | x :: xs => __first_arg_go (fun a b => decide (b < a)) xs 1 0 x

/-- Python `l.pop(i)`: the removed element and the remaining list. -/
def __pop_at : List β → Nat → Option (β × List β)
  | [], _ => none
  | x :: xs, 0 => some (x, xs)
  | x :: xs, i + 1 => (__pop_at xs i).map (fun p => (p.1, x :: p.2))

/-- The body of the `for i in [r_1, r_2]` loop of `multiset_expansion`,
acting on the state `(discovered, explored, r)`.  `none` models the
`ValueError` of the power computation on an empty domain. -/
def __process_candidate (k : Int) (ts : SATransitionSystem α)
    (st : List (MS α) × List (ExpEntry α) × List (MS α)) (i : MS α) :
    Option (List (MS α) × List (ExpEntry α) × List (MS α)) :=
  if __explored_contains_vals st.2.1 (dict_values i) then
    some st
  else
    match __is_valid_candidate k i with
    | none => none
    | some true =>
      if is_region i ts then
        some (st.1 ++ [i], st.2.1 ++ [ExpEntry.vals (dict_values i)], st.2.2)
      else
        some (st.1, st.2.1, st.2.2 ++ [i])
    | some false =>
      some (st.1, st.2.1 ++ [ExpEntry.vals (dict_values i)], st.2.2)

/-- `multiset_expansion`: the inner repair loop.  It repeatedly pops the
work-list entry with the largest value sum, records it as explored, expands
it along the chosen illegal event by `g_e` and by `g_e + 1`, and routes the
two results to `discovered`, back onto the work list, or to `explored`. -/
def multiset_expansion (fuel : Nat) (k : Int) (r : List (MS α))
    (ts : SATransitionSystem α) (discovered : List (MS α))
    (explored : List (ExpEntry α)) (niter : Nat) :
    Option (List (MS α) × List (ExpEntry α) × Nat) :=
  match fuel with
  | 0 => none
  | fuel' + 1 =>
    match r with
    | [] => some (discovered, explored, niter)
    | _ :: _ =>
      match __pop_at r (__first_arg_max (r.map (fun i => (dict_values i).sum))) with
      | none => none
      | some (r_hat, r_rest) =>
        if __explored_contains_vals explored (dict_values r_hat) then
          multiset_expansion fuel' k r_rest ts discovered explored (niter + 1)
        else
          match get_illegal_events r_hat ts with
          | none => none
          | some lst_non_constant_events =>
            match __get_event_gradient_for_expansion lst_non_constant_events with
            | none => none
            | some tup =>
              match get_multiset_expansion_on_event_by_g tup.2.2.2 tup.1 r_hat ts,
                  get_multiset_expansion_on_event_by_G (tup.2.2.2 + 1) tup.1 r_hat ts with
              | Except.ok r_1, Except.ok r_2 =>
                match (__process_candidate k ts
                    (discovered, explored ++ [ExpEntry.vals (dict_values r_hat)], r_rest)
                    r_1).bind
                    (fun st => __process_candidate k ts st r_2) with
                | none => none
                | some (d2, e2, rr2) => multiset_expansion fuel' k rr2 ts d2 e2 (niter + 1)
              | _, _ => none

/-- The minimality filter and final deduplication at the end of
`generate_all_minimal_regions_v1`: drop every marking with a distinct subset
in the discovered list, then remove duplicates. -/
def __minimality_filter (discovered : List (MS α)) : List (MS α) :=
  __remove_duplicates (discovered.filter (fun ms =>
    !(__has_subset_of_list ms (discovered.filter (fun e => !(dictEqB e ms))))))

/-- The main `while candidates` loop of `generate_all_minimal_regions_v1`:
pop the candidate with the least value sum; a region goes to the discovered
list (if new), a non-region is handed to `multiset_expansion`.  When the
candidates run out, the minimality filter produces the result (the final
`for` loop adds one iteration per discovered marking). -/
def generate_all_minimal_regions_v1_loop (fuel : Nat) (k : Int)
    (ts : SATransitionSystem α) (candidates discovered : List (MS α))
    (explored : List (ExpEntry α)) (iterations : Nat) :
    Option (List (MS α) × List (ExpEntry α) × Nat) :=
  match fuel with
  | 0 => none
  | fuel' + 1 =>
    match candidates with
    | [] => some (__minimality_filter discovered, explored, iterations + discovered.length)
    | _ :: _ =>
      match __pop_at candidates
          (__first_arg_min (candidates.map (fun c => (dict_values c).sum))) with
      | none => none
      | some (r_tilde, rest) =>
        if is_region r_tilde ts then
          if discovered.any (fun d => dictEqB d r_tilde) then
            generate_all_minimal_regions_v1_loop fuel' k ts rest discovered explored
              (iterations + 1)
          else
            generate_all_minimal_regions_v1_loop fuel' k ts rest (discovered ++ [r_tilde])
              (explored ++ [ExpEntry.dict r_tilde]) (iterations + 1)
        else
          match multiset_expansion fuel' k [r_tilde] ts discovered explored iterations with
          | none => none
          | some (d, e, n) => generate_all_minimal_regions_v1_loop fuel' k ts rest d e n

/-- `generate_all_minimal_regions_v1`: seed with the excitation and
switching sets, remove duplicates and supersets, then run the search loop. -/
def generate_all_minimal_regions_v1 (fuel : Nat) (k : Int)
    (ts : SATransitionSystem α) :
    Option (List (MS α) × List (ExpEntry α) × Nat) :=
  let candidates := get_candidates ts
  let candidates := __remove_duplicates candidates
  let candidates := __remove_supersets candidates
  generate_all_minimal_regions_v1_loop fuel k ts candidates [] [] 0

/-! Basic lemmas about the dictionary model. -/

lemma lookup_map_valfun (m : MS α) (f : α → Nat → Nat) (k : α) :
    List.lookup k (m.map (fun p => (p.1, f p.1 p.2))) =
      (List.lookup k m).map (fun v => f k v) := by
  induction m with
  | nil => rfl
  | cons p rest ih =>
    by_cases h : k = p.1
    · subst h
      simp [List.lookup]
    · have hb : (k == p.1) = false := by
        simp [h]
      simp [List.lookup, hb, ih]

lemma keysOf_map_valfun (m : MS α) (f : α → Nat → Nat) :
    keysOf (m.map (fun p => (p.1, f p.1 p.2))) = keysOf m := by
  unfold keysOf
  rw [List.map_map]
  rfl

lemma mem_keysOf_iff_lookup_isSome (m : MS α) (k : α) :
    k ∈ keysOf m ↔ (List.lookup k m).isSome := by
  induction m with
  | nil => simp [keysOf, List.lookup]
  | cons p rest ih =>
    by_cases h : k = p.1
    · subst h
      simp [keysOf, List.lookup]
    · have hb : (k == p.1) = false := by
        simp [h]
      simp [keysOf, List.lookup, hb, h, ih]

lemma lookup_eq_some_of_mem (m : MS α) (hnd : (keysOf m).Nodup) {k : α} {v : Nat}
    (h : (k, v) ∈ m) : List.lookup k m = some v := by
  induction m with
  | nil => simp at h
  | cons p rest ih =>
    rcases List.mem_cons.mp h with h1 | h1
    · subst h1
      simp [List.lookup]
    · have hcons := List.nodup_cons.mp (show (p.1 :: keysOf rest).Nodup from hnd)
      have hk : k ≠ p.1 := by
        intro he
        exact hcons.1 (he ▸ List.mem_map.mpr ⟨(k, v), h1, rfl⟩)
      have hb : (k == p.1) = false := by
        simp [hk]
      simp [List.lookup, hb, ih hcons.2 h1]

lemma mget_eq_of_mem (m : MS α) (hnd : (keysOf m).Nodup) {k : α} {v : Nat}
    (h : (k, v) ∈ m) : mget m k = v := by
  unfold mget
  rw [lookup_eq_some_of_mem m hnd h]
  rfl

lemma mem_of_lookup_eq_some {m : MS α} {k : α} {v : Nat}
    (h : List.lookup k m = some v) : (k, v) ∈ m := by
  induction m with
  | nil => simp [List.lookup] at h
  | cons p rest ih =>
    by_cases hk : k = p.1
    · subst hk
      simp [List.lookup] at h
      subst h
      exact List.mem_cons_self _ _
    · have hb : (k == p.1) = false := by
        simp [hk]
      simp [List.lookup, hb] at h
      exact List.mem_cons_of_mem _ (ih h)

lemma mget_map_valfun (m : MS α) (f : α → Nat → Nat) (k : α) (hk : k ∈ keysOf m) :
    mget (m.map (fun p => (p.1, f p.1 p.2))) k = f k (mget m k) := by
  unfold mget
  rw [lookup_map_valfun]
  rcases Option.isSome_iff_exists.mp ((mem_keysOf_iff_lookup_isSome m k).mp hk) with ⟨v, hv⟩
  rw [hv]
  rfl

lemma keySetEq_true_iff (xs ys : List α) :
    keySetEq xs ys = true ↔ ∀ x, x ∈ xs ↔ x ∈ ys := by
  unfold keySetEq
  rw [Bool.and_eq_true]
  simp only [List.all_eq_true, decide_eq_true_eq]
  constructor
  · rintro ⟨h1, h2⟩ x
    exact ⟨fun hx => h1 x hx, fun hx => h2 x hx⟩
  · intro h
    exact ⟨fun x hx => (h x).mp hx, fun y hy => (h y).mpr hy⟩

lemma keysMatch_true_iff (a b : MS α) :
    keysMatch a b = true ↔ ∀ x, x ∈ keysOf a ↔ x ∈ keysOf b := by
  unfold keysMatch
  exact keySetEq_true_iff _ _

lemma keysMatch_refl (a : MS α) : keysMatch a a = true := by
  rw [keysMatch_true_iff]
  intro x
  rfl

lemma keysMatch_symm {a b : MS α} (h : keysMatch a b = true) : keysMatch b a = true := by
  rw [keysMatch_true_iff] at h ⊢
  intro x
  exact (h x).symm

lemma keysMatch_trans {a b c : MS α} (h1 : keysMatch a b = true)
    (h2 : keysMatch b c = true) : keysMatch a c = true := by
  rw [keysMatch_true_iff] at h1 h2 ⊢
  intro x
  exact (h1 x).trans (h2 x)

lemma keysMatch_of_keysOf_eq {a b : MS α} (h : keysOf a = keysOf b) :
    keysMatch a b = true := by
  rw [keysMatch_true_iff, h]
  intro x
  rfl

/-! Lemmas about `list_max` and `list_min`. -/

lemma list_max_eq_none_iff {β : Type} [LinearOrder β] (l : List β) :
    list_max l = none ↔ l = [] := by
  cases l with
  | nil => simp [list_max]
  | cons x xs =>
    simp only [list_max]
    cases h : list_max xs <;> simp

lemma list_max_mem {β : Type} [LinearOrder β] {l : List β} {v : β}
    (h : list_max l = some v) : v ∈ l := by
  induction l generalizing v with
  | nil => simp [list_max] at h
  | cons x xs ih =>
    simp only [list_max] at h
    cases hx : list_max xs with
    | none =>
      rw [hx] at h
      simp at h
      simp [h]
    | some w =>
      rw [hx] at h
      simp at h
      rcases max_choice x w with hc | hc <;> rw [← h, hc]
      · exact List.mem_cons_self _ _
      · exact List.mem_cons_of_mem _ (ih hx)

lemma list_max_le_of_mem {β : Type} [LinearOrder β] {l : List β} {v x : β}
    (h : list_max l = some v) (hx : x ∈ l) : x ≤ v := by
  induction l generalizing v with
  | nil => simp at hx
  | cons y ys ih =>
    simp only [list_max] at h
    rcases List.mem_cons.mp hx with h1 | h1
    · subst h1
      cases hy : list_max ys with
      | none =>
        rw [hy] at h
        simp at h
        exact le_of_eq h
      | some w =>
        rw [hy] at h
        simp at h
        rw [← h]
        exact le_max_left _ _
    · cases hy : list_max ys with
      | none =>
        rw [list_max_eq_none_iff] at hy
        subst hy
        simp at h1
      | some w =>
        rw [hy] at h
        simp at h
        rw [← h]
        exact le_trans (ih hy h1) (le_max_right _ _)

lemma list_min_eq_none_iff {β : Type} [LinearOrder β] (l : List β) :
    list_min l = none ↔ l = [] := by
  cases l with
  | nil => simp [list_min]
  | cons x xs =>
    simp only [list_min]
    cases h : list_min xs <;> simp

lemma list_min_mem {β : Type} [LinearOrder β] {l : List β} {v : β}
    (h : list_min l = some v) : v ∈ l := by
  induction l generalizing v with
  | nil => simp [list_min] at h
  | cons x xs ih =>
    simp only [list_min] at h
    cases hx : list_min xs with
    | none =>
      rw [hx] at h
      simp at h
      simp [h]
    | some w =>
      rw [hx] at h
      simp at h
      rcases min_choice x w with hc | hc <;> rw [← h, hc]
      · exact List.mem_cons_self _ _
      · exact List.mem_cons_of_mem _ (ih hx)

lemma list_min_le_of_mem {β : Type} [LinearOrder β] {l : List β} {v x : β}
    (h : list_min l = some v) (hx : x ∈ l) : v ≤ x := by
  induction l generalizing v with
  | nil => simp at hx
  | cons y ys ih =>
    simp only [list_min] at h
    rcases List.mem_cons.mp hx with h1 | h1
    · subst h1
      cases hy : list_min ys with
      | none =>
        rw [hy] at h
        simp at h
        exact ge_of_eq h
      | some w =>
        rw [hy] at h
        simp at h
        rw [← h]
        exact min_le_left _ _
    · cases hy : list_min ys with
      | none =>
        rw [list_min_eq_none_iff] at hy
        subst hy
        simp at h1
      | some w =>
        rw [hy] at h
        simp at h
        rw [← h]
        exact le_trans (min_le_right _ _) (ih hy h1)

/-! Lemmas about `__pop_at`, `dict_sorted` and `__remove_duplicates`. -/

lemma pop_at_mem {l : List β} {i : Nat} {x : β} {rest : List β}
    (h : __pop_at l i = some (x, rest)) : x ∈ l := by
  induction l generalizing i x rest with
  | nil => simp [__pop_at] at h
  | cons y ys ih =>
    cases i with
    | zero =>
      simp [__pop_at] at h
      simp [h.1]
    | succ j =>
      simp only [__pop_at] at h
      cases hp : __pop_at ys j with
      | none => rw [hp] at h; simp at h
      | some p =>
        rw [hp] at h
        simp at h
        exact List.mem_cons_of_mem _ (h.1 ▸ ih hp)

lemma pop_at_rest_mem {l : List β} {i : Nat} {x : β} {rest : List β}
    (h : __pop_at l i = some (x, rest)) : ∀ y ∈ rest, y ∈ l := by
  induction l generalizing i x rest with
  | nil => simp [__pop_at] at h
  | cons z zs ih =>
    cases i with
    | zero =>
      simp [__pop_at] at h
      intro y hy
      exact List.mem_cons_of_mem _ (h.2 ▸ hy)
    | succ j =>
      simp only [__pop_at] at h
      cases hp : __pop_at zs j with
      | none => rw [hp] at h; simp at h
      | some p =>
        rw [hp] at h
        simp at h
        intro y hy
        rw [← h.2] at hy
        rcases List.mem_cons.mp hy with h1 | h1
        · simp [h1]
        · exact List.mem_cons_of_mem _ (ih hp y h1)

lemma dict_sorted_perm (m : MS α) : List.Perm (dict_sorted m) m :=
  List.perm_insertionSort _ _

lemma mem_dict_sorted {m : MS α} {x : α × Nat} : x ∈ dict_sorted m ↔ x ∈ m :=
  (dict_sorted_perm m).mem_iff

lemma keysOf_dict_sorted_perm (m : MS α) : List.Perm (keysOf (dict_sorted m)) (keysOf m) :=
  (dict_sorted_perm m).map Prod.fst

lemma dict_sorted_eq_of_perm {a b : MS α} (h : List.Perm a b) :
    dict_sorted a = dict_sorted b :=
  List.eq_of_perm_of_sorted
    (((dict_sorted_perm a).trans h).trans (dict_sorted_perm b).symm)
    (List.sorted_insertionSort pairLe a) (List.sorted_insertionSort pairLe b)

lemma dictEqB_true_iff (a b : MS α) (ha : (keysOf a).Nodup) :
    dictEqB a b = true ↔
      keysMatch a b = true ∧ ∀ k ∈ keysOf a, mget b k = mget a k := by
  unfold dictEqB
  rw [Bool.and_eq_true]
  simp only [List.all_eq_true, decide_eq_true_eq]
  constructor
  · rintro ⟨h1, h2⟩
    refine ⟨h1, fun k hk => ?_⟩
    rcases List.mem_map.mp hk with ⟨p, hp, hp1⟩
    subst hp1
    rw [h2 p hp, mget_eq_of_mem a ha hp]
  · rintro ⟨h1, h2⟩
    refine ⟨h1, fun p hp => ?_⟩
    have hk : p.1 ∈ keysOf a := List.mem_map.mpr ⟨p, hp, rfl⟩
    rw [h2 p.1 hk, mget_eq_of_mem a ha (show (p.1, p.2) ∈ a from hp)]

lemma perm_of_dictEqB {a b : MS α} (ha : (keysOf a).Nodup) (hb : (keysOf b).Nodup)
    (h : dictEqB a b = true) : List.Perm a b := by
  have hna : a.Nodup := ha.of_map _
  have hnb : b.Nodup := hb.of_map _
  rw [List.perm_ext_iff_of_nodup hna hnb]
  rcases (dictEqB_true_iff a b ha).mp h with ⟨hm, hv⟩
  rw [keysMatch_true_iff] at hm
  rintro ⟨k, v⟩
  constructor
  · intro hkv
    have hk : k ∈ keysOf a := List.mem_map.mpr ⟨(k, v), hkv, rfl⟩
    have hbv : mget b k = v := by
      rw [hv k hk, mget_eq_of_mem a ha hkv]
    have hkb : k ∈ keysOf b := (hm k).mp hk
    rcases Option.isSome_iff_exists.mp ((mem_keysOf_iff_lookup_isSome b k).mp hkb) with ⟨w, hw⟩
    have : w = v := by
      have := mget_eq_of_mem b hb (mem_of_lookup_eq_some hw)
      rw [← hbv, this]
    exact this ▸ mem_of_lookup_eq_some hw
  · intro hkv
    have hk : k ∈ keysOf b := List.mem_map.mpr ⟨(k, v), hkv, rfl⟩
    have hka : k ∈ keysOf a := (hm k).mpr hk
    have hbv : mget b k = v := mget_eq_of_mem b hb hkv
    rcases Option.isSome_iff_exists.mp ((mem_keysOf_iff_lookup_isSome a k).mp hka) with ⟨w, hw⟩
    have : w = v := by
      have haw := mget_eq_of_mem a ha (mem_of_lookup_eq_some hw)
      rw [← hbv, hv k hka, haw]
    exact this ▸ mem_of_lookup_eq_some hw

lemma remove_duplicates_go_subset (seen l : List (MS α)) :
    ∀ x ∈ __remove_duplicates_go seen l, x ∈ l := by
  induction l generalizing seen with
  | nil => simp [__remove_duplicates_go]
  | cons d rest ih =>
    intro x hx
    simp only [__remove_duplicates_go] at hx
    by_cases h : (seen.any (fun s => decide (s = dict_sorted d))) = true
    · rw [if_pos h] at hx
      exact List.mem_cons_of_mem _ (ih seen x hx)
    · rw [if_neg h] at hx
      rcases List.mem_cons.mp hx with h1 | h1
      · simp [h1]
      · exact List.mem_cons_of_mem _ (ih _ x h1)

lemma remove_duplicates_go_spec (seen l : List (MS α)) :
    (∀ x ∈ __remove_duplicates_go seen l, dict_sorted x ∉ seen) ∧
      List.Pairwise (fun x y => dict_sorted x ≠ dict_sorted y)
        (__remove_duplicates_go seen l) := by
  induction l generalizing seen with
  | nil => simp [__remove_duplicates_go]
  | cons d rest ih =>
    simp only [__remove_duplicates_go]
    by_cases h : (seen.any (fun s => decide (s = dict_sorted d))) = true
    · rw [if_pos h]
      exact ih seen
    · rw [if_neg h]
      have hnot : dict_sorted d ∉ seen := by
        intro hmem
        exact h (List.any_eq_true.mpr ⟨_, hmem, by simp⟩)
      rcases ih (dict_sorted d :: seen) with ⟨ih1, ih2⟩
      constructor
      · intro x hx
        rcases List.mem_cons.mp hx with h1 | h1
        · exact h1 ▸ hnot
        · intro hmem
          exact ih1 x h1 (List.mem_cons_of_mem _ hmem)
      · rw [List.pairwise_cons]
        refine ⟨fun x hx => ?_, ih2⟩
        intro heq
        exact ih1 x hx (heq ▸ List.mem_cons_self _ _)

lemma remove_duplicates_subset (l : List (MS α)) :
    ∀ x ∈ __remove_duplicates l, x ∈ l :=
  remove_duplicates_go_subset [] l

lemma remove_duplicates_pairwise (l : List (MS α)) :
    List.Pairwise (fun x y => dict_sorted x ≠ dict_sorted y) (__remove_duplicates l) :=
  (remove_duplicates_go_spec [] l).2

/-! The multiset-algebra claims. -/

lemma union_body_of_match {a b : MS α} (h : keysMatch a b = true) :
    get_union_of_multisets a b = some (a.map (fun p => (p.1, max p.2 (mget b p.1)))) := by
  unfold get_union_of_multisets get_union_of_multisets_body
  rw [if_pos h]
  rfl

lemma intersection_body_of_match {a b : MS α} (h : keysMatch a b = true) :
    get_intersection_of_multisets a b =
      some (a.map (fun p => (p.1, min p.2 (mget b p.1)))) := by
  unfold get_intersection_of_multisets get_intersection_of_multisets_body
  rw [if_pos h]
  rfl

lemma keysOf_union_arg (a b : MS α) :
    keysOf (a.map (fun p => (p.1, max p.2 (mget b p.1)))) = keysOf a :=
  keysOf_map_valfun a (fun k v => max v (mget b k))

lemma keysOf_intersection_arg (a b : MS α) :
    keysOf (a.map (fun p => (p.1, min p.2 (mget b p.1)))) = keysOf a :=
  keysOf_map_valfun a (fun k v => min v (mget b k))

/-- Commutativity of pointwise max, as dict equality, for matching
domains. -/
lemma union_comm_dictEq {a b : MS α} (ha : (keysOf a).Nodup) (hb : (keysOf b).Nodup)
    (h : keysMatch a b = true) :
    ∃ u v, get_union_of_multisets a b = some u ∧ get_union_of_multisets b a = some v ∧
      dictEqB u v = true := by
  refine ⟨_, _, union_body_of_match h, union_body_of_match (keysMatch_symm h), ?_⟩
  rw [dictEqB_true_iff _ _ (by rw [keysOf_union_arg]; exact ha)]
  constructor
  · rw [keysMatch_true_iff]
    simp only [keysOf_union_arg]
    exact (keysMatch_true_iff a b).mp h
  · intro k hk
    rw [keysOf_union_arg] at hk
    have hkb : k ∈ keysOf b := (keysMatch_true_iff a b).mp h k |>.mp hk
    rw [mget_map_valfun a (fun k v => max v (mget b k)) k hk,
      mget_map_valfun b (fun k v => max v (mget a k)) k hkb]
    exact max_comm _ _

lemma intersection_comm_dictEq {a b : MS α} (ha : (keysOf a).Nodup)
    (hb : (keysOf b).Nodup) (h : keysMatch a b = true) :
    ∃ u v, get_intersection_of_multisets a b = some u ∧
      get_intersection_of_multisets b a = some v ∧ dictEqB u v = true := by
  refine ⟨_, _, intersection_body_of_match h,
    intersection_body_of_match (keysMatch_symm h), ?_⟩
  rw [dictEqB_true_iff _ _ (by rw [keysOf_intersection_arg]; exact ha)]
  constructor
  · rw [keysMatch_true_iff]
    simp only [keysOf_intersection_arg]
    exact (keysMatch_true_iff a b).mp h
  · intro k hk
    rw [keysOf_intersection_arg] at hk
    have hkb : k ∈ keysOf b := (keysMatch_true_iff a b).mp h k |>.mp hk
    rw [mget_map_valfun a (fun k v => min v (mget b k)) k hk,
      mget_map_valfun b (fun k v => min v (mget a k)) k hkb]
    exact min_comm _ _

lemma union_assoc_eq {a b c : MS α} (hab : keysMatch a b = true)
    (hbc : keysMatch b c = true) :
    (get_union_of_multisets a b).bind (fun x => get_union_of_multisets x c) =
      (get_union_of_multisets b c).bind (fun y => get_union_of_multisets a y) := by
  have hac : keysMatch a c = true := keysMatch_trans hab hbc
  rw [union_body_of_match hab, union_body_of_match hbc]
  show get_union_of_multisets (a.map (fun p => (p.1, max p.2 (mget b p.1)))) c =
    get_union_of_multisets a (b.map (fun p => (p.1, max p.2 (mget c p.1))))
  have h1 : keysMatch (a.map (fun p => (p.1, max p.2 (mget b p.1)))) c = true := by
    rw [keysMatch_true_iff]
    simp only [keysOf_union_arg]
    exact (keysMatch_true_iff a c).mp hac
  have h2 : keysMatch a (b.map (fun p => (p.1, max p.2 (mget c p.1)))) = true := by
    rw [keysMatch_true_iff]
    simp only [keysOf_union_arg]
    exact (keysMatch_true_iff a b).mp hab
  rw [union_body_of_match h1, union_body_of_match h2]
  congr 1
  rw [List.map_map]
  apply List.map_congr_left
  intro p hp
  have hkb : p.1 ∈ keysOf b :=
    ((keysMatch_true_iff a b).mp hab p.1).mp (List.mem_map.mpr ⟨p, hp, rfl⟩)
  simp only [Function.comp]
  rw [mget_map_valfun b (fun k v => max v (mget c k)) p.1 hkb]
  rw [max_assoc]

lemma intersection_assoc_eq {a b c : MS α} (hab : keysMatch a b = true)
    (hbc : keysMatch b c = true) :
    (get_intersection_of_multisets a b).bind (fun x => get_intersection_of_multisets x c) =
      (get_intersection_of_multisets b c).bind
        (fun y => get_intersection_of_multisets a y) := by
  have hac : keysMatch a c = true := keysMatch_trans hab hbc
  rw [intersection_body_of_match hab, intersection_body_of_match hbc]
  show get_intersection_of_multisets (a.map (fun p => (p.1, min p.2 (mget b p.1)))) c =
    get_intersection_of_multisets a (b.map (fun p => (p.1, min p.2 (mget c p.1))))
  have h1 : keysMatch (a.map (fun p => (p.1, min p.2 (mget b p.1)))) c = true := by
    rw [keysMatch_true_iff]
    simp only [keysOf_intersection_arg]
    exact (keysMatch_true_iff a c).mp hac
  have h2 : keysMatch a (b.map (fun p => (p.1, min p.2 (mget c p.1)))) = true := by
    rw [keysMatch_true_iff]
    simp only [keysOf_intersection_arg]
    exact (keysMatch_true_iff a b).mp hab
  rw [intersection_body_of_match h1, intersection_body_of_match h2]
  congr 1
  rw [List.map_map]
  apply List.map_congr_left
  intro p hp
  have hkb : p.1 ∈ keysOf b :=
    ((keysMatch_true_iff a b).mp hab p.1).mp (List.mem_map.mpr ⟨p, hp, rfl⟩)
  simp only [Function.comp]
  rw [mget_map_valfun b (fun k v => min v (mget c k)) p.1 hkb]
  rw [min_assoc]

lemma union_idem {a : MS α} (ha : (keysOf a).Nodup) :
    get_union_of_multisets a a = some a := by
  rw [union_body_of_match (keysMatch_refl a)]
  congr 1
  have h : ∀ p ∈ a, (p.1, max p.2 (mget a p.1)) = id p := by
    intro p hp
    rw [mget_eq_of_mem a ha (show (p.1, p.2) ∈ a from hp)]
    simp
  rw [List.map_congr_left h, List.map_id]

lemma intersection_idem {a : MS α} (ha : (keysOf a).Nodup) :
    get_intersection_of_multisets a a = some a := by
  rw [intersection_body_of_match (keysMatch_refl a)]
  congr 1
  have h : ∀ p ∈ a, (p.1, min p.2 (mget a p.1)) = id p := by
    intro p hp
    rw [mget_eq_of_mem a ha (show (p.1, p.2) ∈ a from hp)]
    simp
  rw [List.map_congr_left h, List.map_id]

/-- C9: over matching domains, `union` (pointwise max) and `intersect`
(pointwise min) are commutative (up to dict equality, which is how the
source compares markings), associative, and idempotent. -/
theorem C9_union_intersect_algebra :
    ∀ (a b c : MS α), (keysOf a).Nodup → (keysOf b).Nodup → (keysOf c).Nodup →
    keysMatch a b = true → keysMatch b c = true →
    (∃ u v, get_union_of_multisets a b = some u ∧ get_union_of_multisets b a = some v ∧
      dictEqB u v = true) ∧
    ((get_union_of_multisets a b).bind (fun x => get_union_of_multisets x c) =
      (get_union_of_multisets b c).bind (fun y => get_union_of_multisets a y)) ∧
    get_union_of_multisets a a = some a ∧
    (∃ u v, get_intersection_of_multisets a b = some u ∧
      get_intersection_of_multisets b a = some v ∧ dictEqB u v = true) ∧
    ((get_intersection_of_multisets a b).bind
        (fun x => get_intersection_of_multisets x c) =
      (get_intersection_of_multisets b c).bind
        (fun y => get_intersection_of_multisets a y)) ∧
    get_intersection_of_multisets a a = some a := by
  intro a b c ha hb hc hab hbc
  exact ⟨union_comm_dictEq ha hb hab, union_assoc_eq hab hbc, union_idem ha,
    intersection_comm_dictEq ha hb hab, intersection_assoc_eq hab hbc,
    intersection_idem ha⟩

/-- Witness for C9 at concrete markings over the common domain `{1, 2}`. -/
theorem C9_witness :
    ((keysOf [((1 : Nat), 2), (2, 0)]).Nodup ∧ (keysOf [((1 : Nat), 1), (2, 3)]).Nodup ∧
      (keysOf [((1 : Nat), 0), (2, 5)]).Nodup ∧
      keysMatch [((1 : Nat), 2), (2, 0)] [(1, 1), (2, 3)] = true ∧
      keysMatch [((1 : Nat), 1), (2, 3)] [(1, 0), (2, 5)] = true) ∧
    ((∃ u v, get_union_of_multisets [((1 : Nat), 2), (2, 0)] [(1, 1), (2, 3)] = some u ∧
      get_union_of_multisets [((1 : Nat), 1), (2, 3)] [(1, 2), (2, 0)] = some v ∧
      dictEqB u v = true) ∧
    ((get_union_of_multisets [((1 : Nat), 2), (2, 0)] [(1, 1), (2, 3)]).bind
        (fun x => get_union_of_multisets x [(1, 0), (2, 5)]) =
      (get_union_of_multisets [((1 : Nat), 1), (2, 3)] [(1, 0), (2, 5)]).bind
        (fun y => get_union_of_multisets [(1, 2), (2, 0)] y)) ∧
    get_union_of_multisets [((1 : Nat), 2), (2, 0)] [(1, 2), (2, 0)] =
      some [(1, 2), (2, 0)] ∧
    (∃ u v, get_intersection_of_multisets [((1 : Nat), 2), (2, 0)] [(1, 1), (2, 3)] =
        some u ∧
      get_intersection_of_multisets [((1 : Nat), 1), (2, 3)] [(1, 2), (2, 0)] = some v ∧
      dictEqB u v = true) ∧
    ((get_intersection_of_multisets [((1 : Nat), 2), (2, 0)] [(1, 1), (2, 3)]).bind
        (fun x => get_intersection_of_multisets x [(1, 0), (2, 5)]) =
      (get_intersection_of_multisets [((1 : Nat), 1), (2, 3)] [(1, 0), (2, 5)]).bind
        (fun y => get_intersection_of_multisets [(1, 2), (2, 0)] y)) ∧
    get_intersection_of_multisets [((1 : Nat), 2), (2, 0)] [(1, 2), (2, 0)] =
      some [(1, 2), (2, 0)]) :=
  ⟨⟨by decide, by decide, by decide, by decide, by decide⟩,
    C9_union_intersect_algebra [((1 : Nat), 2), (2, 0)] [(1, 1), (2, 3)] [(1, 0), (2, 5)]
      (by decide) (by decide) (by decide) (by decide) (by decide)⟩

/-- C8 counterexample: on an empty domain `get_power_of_multiset` raises a
`ValueError` (here: `none`) instead of returning 0 as the claim states. -/
theorem C8_counterexample : get_power_of_multiset ([] : MS Nat) = none := rfl

/-- C8 (amended): on a non-empty domain, the power is the maximum of the
multiplicities, and it is 0 exactly when the marking is the all-zero
marking.  On an empty domain the source raises `ValueError`. -/
theorem C8_power_max :
    ∀ (m : MS α), m ≠ [] →
    ∃ p, get_power_of_multiset m = some p ∧ (∀ v ∈ dict_values m, v ≤ p) ∧
      p ∈ dict_values m ∧ (p = 0 ↔ ∀ v ∈ dict_values m, v = 0) := by
  intro m hm
  have hvals : dict_values m ≠ [] := by
    intro h
    exact hm (List.map_eq_nil_iff.mp h)
  cases hp : get_power_of_multiset m with
  | none =>
    exact absurd ((list_max_eq_none_iff _).mp hp) hvals
  | some p =>
    refine ⟨p, rfl, fun v hv => list_max_le_of_mem hp hv, list_max_mem hp, ?_⟩
    constructor
    · intro h0 v hv
      exact Nat.le_zero.mp (h0 ▸ list_max_le_of_mem hp hv)
    · intro hall
      exact hall p (list_max_mem hp)

/-- Witness for C8 at the concrete marking `{1: 2, 2: 1}`. -/
theorem C8_witness :
    ([((1 : Nat), 2), (2, 1)] : MS Nat) ≠ [] ∧
    ∃ p, get_power_of_multiset ([((1 : Nat), 2), (2, 1)] : MS Nat) = some p ∧
      (∀ v ∈ dict_values ([((1 : Nat), 2), (2, 1)] : MS Nat), v ≤ p) ∧
      p ∈ dict_values ([((1 : Nat), 2), (2, 1)] : MS Nat) ∧
      (p = 0 ↔ ∀ v ∈ dict_values ([((1 : Nat), 2), (2, 1)] : MS Nat), v = 0) :=
  ⟨by decide, C8_power_max [((1 : Nat), 2), (2, 1)] (by decide)⟩

/-- C4 counterexample: on the claim's literal inputs `{s1:1, s2:0}` and
`{s1:1, s3:0}` (states numbered 1, 2, 3) the mismatch is not fatal: `union`
returns the ordinary value `None` and `is_subset` returns `False` — the very
same `False` that a genuine matching-domain non-subset pair produces — so
the error is recovered internally rather than propagated. -/
theorem C4_counterexample :
    get_union_of_multisets [((1 : Nat), 1), (2, 0)] [(1, 1), (3, 0)] = none ∧
    is_subset [((1 : Nat), 1), (2, 0)] [(1, 1), (3, 0)] = false ∧
    is_subset [((1 : Nat), 1), (2, 0)] [(1, 0), (2, 0)] = false := by
  exact ⟨rfl, rfl, rfl⟩

/-- C4 (amended): on unequal key sets every multiset operation raises a
`ValueError` internally and catches it itself: `union`, `intersection` and
`difference` return `None`, `is_subset` returns `False`; no error reaches
the caller. -/
theorem C4_mismatch_recovered :
    ∀ (a b : MS α), keysMatch a b = false →
    get_union_of_multisets_body a b = Except.error "Multiset mismatch" ∧
    get_union_of_multisets a b = none ∧
    get_intersection_of_multisets_body a b = Except.error "Multisets mismatch!" ∧
    get_intersection_of_multisets a b = none ∧
    get_difference_of_multisets_body a b = Except.error "Multisets mismatch!" ∧
    get_difference_of_multisets a b = none ∧
    is_subset_body a b = Except.error "Warning: input multisets mismatch!" ∧
    is_subset a b = false := by
  intro a b h
  have hneg : ¬(keysMatch a b = true) := by
    rw [h]
    exact Bool.false_ne_true
  refine ⟨?_, ?_, ?_, ?_, ?_, ?_, ?_, ?_⟩ <;>
    simp [get_union_of_multisets, get_union_of_multisets_body,
      get_intersection_of_multisets, get_intersection_of_multisets_body,
      get_difference_of_multisets, get_difference_of_multisets_body,
      is_subset, is_subset_body, hneg, Except.toOption]

/-- Witness for C4 at the claim's literal mismatching pair. -/
theorem C4_witness :
    keysMatch [((1 : Nat), 1), (2, 0)] [(1, 1), (3, 0)] = false ∧
    (get_union_of_multisets_body [((1 : Nat), 1), (2, 0)] [(1, 1), (3, 0)] =
        Except.error "Multiset mismatch" ∧
      get_union_of_multisets [((1 : Nat), 1), (2, 0)] [(1, 1), (3, 0)] = none ∧
      get_intersection_of_multisets_body [((1 : Nat), 1), (2, 0)] [(1, 1), (3, 0)] =
        Except.error "Multisets mismatch!" ∧
      get_intersection_of_multisets [((1 : Nat), 1), (2, 0)] [(1, 1), (3, 0)] = none ∧
      get_difference_of_multisets_body [((1 : Nat), 1), (2, 0)] [(1, 1), (3, 0)] =
        Except.error "Multisets mismatch!" ∧
      get_difference_of_multisets [((1 : Nat), 1), (2, 0)] [(1, 1), (3, 0)] = none ∧
      is_subset_body [((1 : Nat), 1), (2, 0)] [(1, 1), (3, 0)] =
        Except.error "Warning: input multisets mismatch!" ∧
      is_subset [((1 : Nat), 1), (2, 0)] [(1, 1), (3, 0)] = false) :=
  ⟨by decide, C4_mismatch_recovered [((1 : Nat), 1), (2, 0)] [(1, 1), (3, 0)] (by decide)⟩

/-! The expansion kernel: C6 and C10. -/

/-- The specification formula for the per-state delta of expansion-by-g:
`max(0, max { r(to) - r(s) - g : (s, e, to) ∈ T }, if any; else 0)`,
written directly over the transition set. -/
def spec_delta_g (g : Int) (m : MS α) (e s : α) (ts : SATransitionSystem α) : Int :=
  max 0 ((list_max ((ts.transitions.filter (fun t => decide (t.1 = s ∧ t.2.1 = e))).map
    (fun t => (mget m t.2.2 : Int) - (mget m s : Int) - g))).getD 0)

/-- The specification formula for the per-state delta of expansion-by-G:
`max(0, max { r(from) - r(s) + g : (from, e, s) ∈ T }, if any; else 0)`. -/
def spec_delta_G (g : Int) (m : MS α) (e s : α) (ts : SATransitionSystem α) : Int :=
  max 0 ((list_max ((ts.transitions.filter (fun t => decide (t.2.2 = s ∧ t.2.1 = e))).map
    (fun t => (mget m t.1 : Int) - (mget m s : Int) + g))).getD 0)

lemma get_delta_g_eq_spec (g : Int) (m : MS α) (e s : α) (ts : SATransitionSystem α) :
    get_delta_g g m e s ts = spec_delta_g g m e s ts := by
  unfold get_delta_g spec_delta_g get_state_transition_by_event
  dsimp only
  rw [List.filter_filter]
  have hfe : (ts.transitions.filter fun t => decide (t.1 = s) && decide (t.2.1 = e)) =
      ts.transitions.filter fun t => decide (t.1 = s ∧ t.2.1 = e) := by
    apply List.filter_congr
    intro t _
    simp
  rw [hfe]
  have hmap : ∀ t ∈ ts.transitions.filter (fun t => decide (t.1 = s ∧ t.2.1 = e)),
      (mget m t.2.2 : Int) - (mget m t.1 : Int) - g =
        (mget m t.2.2 : Int) - (mget m s : Int) - g := by
    intro t ht
    rcases List.mem_filter.mp ht with ⟨_, hcond⟩
    rw [decide_eq_true_eq] at hcond
    rw [hcond.1]
  rw [List.map_congr_left hmap]
  cases hl : list_max ((ts.transitions.filter
      (fun t => decide (t.1 = s ∧ t.2.1 = e))).map
      (fun t => (mget m t.2.2 : Int) - (mget m s : Int) - g)) with
  | none => simp
  | some v => simp

lemma get_delta_G_eq_spec (g : Int) (m : MS α) (e s : α) (ts : SATransitionSystem α) :
    get_delta_G g m e s ts = spec_delta_G g m e s ts := by
  unfold get_delta_G spec_delta_G get_state_transition_by_event
  dsimp only
  rw [List.filter_filter]
  have hfe : (ts.transitions.filter fun t => decide (t.2.2 = s) && decide (t.2.1 = e)) =
      ts.transitions.filter fun t => decide (t.2.2 = s ∧ t.2.1 = e) := by
    apply List.filter_congr
    intro t _
    simp
  rw [hfe]
  have hmap : ∀ t ∈ ts.transitions.filter (fun t => decide (t.2.2 = s ∧ t.2.1 = e)),
      (mget m t.1 : Int) - (mget m t.2.2 : Int) + g =
        (mget m t.1 : Int) - (mget m s : Int) + g := by
    intro t ht
    rcases List.mem_filter.mp ht with ⟨_, hcond⟩
    rw [decide_eq_true_eq] at hcond
    rw [hcond.1]
  rw [List.map_congr_left hmap]
  cases hl : list_max ((ts.transitions.filter
      (fun t => decide (t.2.2 = s ∧ t.2.1 = e))).map
      (fun t => (mget m t.1 : Int) - (mget m s : Int) + g)) with
  | none => simp
  | some v => simp

lemma get_delta_g_nonneg (g : Int) (m : MS α) (e s : α) (ts : SATransitionSystem α) :
    0 ≤ get_delta_g g m e s ts := by
  rw [get_delta_g_eq_spec]
  exact le_max_left 0 _

lemma get_delta_G_nonneg (g : Int) (m : MS α) (e s : α) (ts : SATransitionSystem α) :
    0 ≤ get_delta_G g m e s ts := by
  rw [get_delta_G_eq_spec]
  exact le_max_left 0 _

lemma expansion_by_g_ok {g : Int} {e : α} {m : MS α} {ts : SATransitionSystem α}
    (h : keySetEq (keysOf m) ts.states = true) :
    get_multiset_expansion_on_event_by_g g e m ts =
      Except.ok (m.map (fun p => (p.1, p.2 + (get_delta_g g m e p.1 ts).toNat))) := by
  unfold get_multiset_expansion_on_event_by_g
  rw [if_pos h]

lemma expansion_by_G_ok {g : Int} {e : α} {m : MS α} {ts : SATransitionSystem α}
    (h : keySetEq (keysOf m) ts.states = true) :
    get_multiset_expansion_on_event_by_G g e m ts =
      Except.ok (m.map (fun p => (p.1, p.2 + (get_delta_G g m e p.1 ts).toNat))) := by
  unfold get_multiset_expansion_on_event_by_G
  rw [if_pos h]

lemma expansion_by_g_ok_inv {g : Int} {e : α} {m r : MS α} {ts : SATransitionSystem α}
    (h : get_multiset_expansion_on_event_by_g g e m ts = Except.ok r) :
    keySetEq (keysOf m) ts.states = true ∧
      r = m.map (fun p => (p.1, p.2 + (get_delta_g g m e p.1 ts).toNat)) := by
  by_cases hg : keySetEq (keysOf m) ts.states = true
  · rw [expansion_by_g_ok hg] at h
    refine ⟨hg, ?_⟩
    injection h with h
    exact h.symm
  · unfold get_multiset_expansion_on_event_by_g at h
    rw [if_neg hg] at h
    exact absurd h (by simp)

lemma expansion_by_G_ok_inv {g : Int} {e : α} {m r : MS α} {ts : SATransitionSystem α}
    (h : get_multiset_expansion_on_event_by_G g e m ts = Except.ok r) :
    keySetEq (keysOf m) ts.states = true ∧
      r = m.map (fun p => (p.1, p.2 + (get_delta_G g m e p.1 ts).toNat)) := by
  by_cases hg : keySetEq (keysOf m) ts.states = true
  · rw [expansion_by_G_ok hg] at h
    refine ⟨hg, ?_⟩
    injection h with h
    exact h.symm
  · unfold get_multiset_expansion_on_event_by_G at h
    rw [if_neg hg] at h
    exact absurd h (by simp)

/-- C6: under the domain guard, expansion-by-g adds exactly
`max(0, max { r(to) - r(s) - g : (s, e, to) ∈ T }, else 0)` at every state
`s`, expansion-by-G adds exactly
`max(0, max { r(from) - r(s) + g : (from, e, s) ∈ T }, else 0)`, and both
results keep the domain of the input marking (which the guard forces to be
the state set). -/
theorem C6_expansion_formulas :
    ∀ (ts : SATransitionSystem α) (g : Int) (e : α) (m : MS α),
    keySetEq (keysOf m) ts.states = true →
    ∃ r1 r2, get_multiset_expansion_on_event_by_g g e m ts = Except.ok r1 ∧
      get_multiset_expansion_on_event_by_G g e m ts = Except.ok r2 ∧
      keysOf r1 = keysOf m ∧ keysOf r2 = keysOf m ∧
      ∀ s ∈ keysOf m,
        (mget r1 s : Int) = (mget m s : Int) + spec_delta_g g m e s ts ∧
        (mget r2 s : Int) = (mget m s : Int) + spec_delta_G g m e s ts := by
  intro ts g e m h
  refine ⟨_, _, expansion_by_g_ok h, expansion_by_G_ok h,
    keysOf_map_valfun m (fun k v => v + (get_delta_g g m e k ts).toNat),
    keysOf_map_valfun m (fun k v => v + (get_delta_G g m e k ts).toNat),
    fun s hs => ⟨?_, ?_⟩⟩
  · rw [mget_map_valfun m (fun k v => v + (get_delta_g g m e k ts).toNat) s hs]
    push_cast
    rw [Int.toNat_of_nonneg (get_delta_g_nonneg g m e s ts), get_delta_g_eq_spec]
  · rw [mget_map_valfun m (fun k v => v + (get_delta_G g m e k ts).toNat) s hs]
    push_cast
    rw [Int.toNat_of_nonneg (get_delta_G_nonneg g m e s ts), get_delta_G_eq_spec]

/-- C10: the two expansions never decrease a multiplicity, because every
per-state delta has the form `max(0, _)` and is therefore non-negative. -/
theorem C10_expansion_monotone :
    ∀ (ts : SATransitionSystem α) (g : Int) (e : α) (m r1 r2 : MS α),
    get_multiset_expansion_on_event_by_g g e m ts = Except.ok r1 →
    get_multiset_expansion_on_event_by_G g e m ts = Except.ok r2 →
    ∀ s, mget m s ≤ mget r1 s ∧ mget m s ≤ mget r2 s := by
  intro ts g e m r1 r2 h1 h2 s
  rcases expansion_by_g_ok_inv h1 with ⟨_, hr1⟩
  rcases expansion_by_G_ok_inv h2 with ⟨_, hr2⟩
  subst hr1
  subst hr2
  constructor
  · unfold mget
    rw [lookup_map_valfun m (fun k v => v + (get_delta_g g m e k ts).toNat) s]
    cases List.lookup s m with
    | none => exact le_refl _
    | some v => exact Nat.le_add_right _ _
  · unfold mget
    rw [lookup_map_valfun m (fun k v => v + (get_delta_G g m e k ts).toNat) s]
    cases List.lookup s m with
    | none => exact le_refl _
    | some v => exact Nat.le_add_right _ _

/-! Concrete transition systems used by witnesses and counterexamples.
State names: 1..4; event names: 10 (a), 11 (b), 12 (c). -/

/-- The single self-loop LTS of the spec's scenario 2:
`S = {s1}`, `E = {a}`, `T = {(s1, a, s1)}`. -/
def tsSelfloop : SATransitionSystem Nat :=
  ⟨[1], [10], [(1, 10, 1)]⟩

/-- The trivial-diamond LTS of the spec's scenario 1:
`T = {(s1,a,s2), (s1,b,s3), (s2,c,s4), (s3,c,s4)}`. -/
def tsDiamond : SATransitionSystem Nat :=
  ⟨[1, 2, 3, 4], [10, 11, 12],
   [(1, 10, 2), (1, 11, 3), (2, 12, 4), (3, 12, 4)]⟩

/-- An LTS whose only event has no transitions. -/
def tsNoTrans : SATransitionSystem Nat :=
  ⟨[1], [10], []⟩

/-- Witness for C6 on the diamond LTS. -/
theorem C6_witness :
    keySetEq (keysOf [((1 : Nat), 0), (2, 1), (3, 0), (4, 0)]) tsDiamond.states = true ∧
    ∃ r1 r2, get_multiset_expansion_on_event_by_g 0 12 [((1 : Nat), 0), (2, 1), (3, 0), (4, 0)]
        tsDiamond = Except.ok r1 ∧
      get_multiset_expansion_on_event_by_G 0 12 [((1 : Nat), 0), (2, 1), (3, 0), (4, 0)]
        tsDiamond = Except.ok r2 ∧
      keysOf r1 = keysOf [((1 : Nat), 0), (2, 1), (3, 0), (4, 0)] ∧
      keysOf r2 = keysOf [((1 : Nat), 0), (2, 1), (3, 0), (4, 0)] ∧
      ∀ s ∈ keysOf [((1 : Nat), 0), (2, 1), (3, 0), (4, 0)],
        (mget r1 s : Int) = (mget [((1 : Nat), 0), (2, 1), (3, 0), (4, 0)] s : Int) +
          spec_delta_g 0 [((1 : Nat), 0), (2, 1), (3, 0), (4, 0)] 12 s tsDiamond ∧
        (mget r2 s : Int) = (mget [((1 : Nat), 0), (2, 1), (3, 0), (4, 0)] s : Int) +
          spec_delta_G 0 [((1 : Nat), 0), (2, 1), (3, 0), (4, 0)] 12 s tsDiamond :=
  ⟨by decide, C6_expansion_formulas tsDiamond 0 12 [((1 : Nat), 0), (2, 1), (3, 0), (4, 0)]
    (by decide)⟩

/-- Witness for C10 on the diamond LTS. -/
theorem C10_witness :
    get_multiset_expansion_on_event_by_g 1 12 [((1 : Nat), 0), (2, 1), (3, 0), (4, 0)]
        tsDiamond = Except.ok [(1, 0), (2, 1), (3, 0), (4, 0)] ∧
    get_multiset_expansion_on_event_by_G 1 12 [((1 : Nat), 0), (2, 1), (3, 0), (4, 0)]
        tsDiamond = Except.ok [(1, 0), (2, 1), (3, 0), (4, 2)] ∧
    ∀ s, mget [((1 : Nat), 0), (2, 1), (3, 0), (4, 0)] s ≤
        mget [((1 : Nat), 0), (2, 1), (3, 0), (4, 0)] s ∧
      mget [((1 : Nat), 0), (2, 1), (3, 0), (4, 0)] s ≤
        mget [((1 : Nat), 0), (2, 1), (3, 0), (4, 2)] s :=
  ⟨by rfl, by rfl,
    C10_expansion_monotone tsDiamond 1 12 [((1 : Nat), 0), (2, 1), (3, 0), (4, 0)]
      [(1, 0), (2, 1), (3, 0), (4, 0)] [(1, 0), (2, 1), (3, 0), (4, 2)]
      (by rfl) (by rfl)⟩

/-- The spec's consistency condition on an event: its gradient set under the
marking is a singleton, with an event that has no transitions vacuously
consistent. -/
def spec_event_consistent (e : α) (m : MS α) (ts : SATransitionSystem α) : Prop :=
  (get_gradient_of_event e m ts).toFinset.card = 1 ∨ get_gradient_of_event e m ts = []

/-- C3 counterexample: in an LTS whose only event has no transitions, every
event is vacuously consistent in the spec's sense, yet `is_region` returns
`False` (the code treats an empty gradient list as a failure, since
`len(set([])) == 1` is false). -/
theorem C3_counterexample :
    (∀ e ∈ tsNoTrans.events, spec_event_consistent e [(1, 0)] tsNoTrans) ∧
      is_region [(1, 0)] tsNoTrans = false := by
  constructor
  · intro e he
    right
    rcases List.mem_singleton.mp he with rfl
    rfl
  · rfl

/-- C3 (amended): `is_region` returns `True` exactly when every event of the
LTS has exactly one distinct gradient value under the marking; an empty
event set is vacuously consistent, but an event with no transitions makes
`is_region` return `False`. -/
theorem C3_is_region_iff :
    ∀ (m : MS α) (ts : SATransitionSystem α),
    is_region m ts = true ↔
      ∀ e ∈ ts.events, (get_gradient_of_event e m ts).toFinset.card = 1 := by
  intro m ts
  unfold is_region get_gradients_for_multisets
  rw [List.all_eq_true]
  constructor
  · intro h e he
    have := h (e, get_gradient_of_event e m ts) (List.mem_map.mpr ⟨e, he, rfl⟩)
    simpa using this
  · intro h p hp
    rcases List.mem_map.mp hp with ⟨e, he, rfl⟩
    simpa using h e he

/-! C7: illegal events and the expansion-selection rule. -/

lemma illegal_events_go_spec :
    ∀ (gl : List (α × List Int)), (∀ p ∈ gl, p.2 ≠ []) →
    ∃ l, __illegal_events_go gl = some l ∧
      ∀ x : α × Int × Int × Int, x ∈ l ↔ ∃ p, p ∈ gl ∧ p.2.toFinset.card ≠ 1 ∧
        x.1 = p.1 ∧ list_min p.2 = some x.2.1 ∧ list_max p.2 = some x.2.2.1 ∧
        x.2.2.2 = __get_gradient_for_binary_search x.2.1 x.2.2.1 := by
  intro gl
  induction gl with
  | nil =>
    intro _
    refine ⟨[], rfl, fun x => ?_⟩
    simp
  | cons p rest ih =>
    intro hne
    have hprest : ∀ q ∈ rest, q.2 ≠ [] := fun q hq => hne q (List.mem_cons_of_mem _ hq)
    rcases ih hprest with ⟨l, hl, hiff⟩
    by_cases hc : p.2.toFinset.card = 1
    · refine ⟨l, ?_, ?_⟩
      · unfold __illegal_events_go
        rw [if_pos hc]
        exact hl
      · intro x
        rw [hiff x]
        constructor
        · rintro ⟨q, hq, hq2, h3, h4, h5, h6⟩
          exact ⟨q, List.mem_cons_of_mem _ hq, hq2, h3, h4, h5, h6⟩
        · rintro ⟨q, hq, hq2, h3, h4, h5, h6⟩
          rcases List.mem_cons.mp hq with h1 | h1
          · exact absurd (h1 ▸ hc) hq2
          · exact ⟨q, h1, hq2, h3, h4, h5, h6⟩
    · have hp2 : p.2 ≠ [] := hne p (List.mem_cons_self _ _)
      rcases Option.isSome_iff_exists.mp
        (by rw [← Option.ne_none_iff_isSome]; intro h0
            exact hp2 ((list_min_eq_none_iff p.2).mp h0)) with ⟨gmin, hgmin⟩
      rcases Option.isSome_iff_exists.mp
        (by rw [← Option.ne_none_iff_isSome]; intro h0
            exact hp2 ((list_max_eq_none_iff p.2).mp h0)) with ⟨gmax, hgmax⟩
      refine ⟨(p.1, gmin, gmax, __get_gradient_for_binary_search gmin gmax) :: l, ?_, ?_⟩
      · unfold __illegal_events_go
        rw [if_neg hc, hgmin, hgmax, hl]
      · intro x
        obtain ⟨x1, x2, x3, x4⟩ := x
        constructor
        · intro hx
          rcases List.mem_cons.mp hx with h1 | h1
          · injection h1 with e1 e2
            injection e2 with e2 e3
            injection e3 with e3 e4
            subst e1; subst e2; subst e3; subst e4
            exact ⟨p, List.mem_cons_self _ _, hc, rfl, hgmin, hgmax, rfl⟩
          · rcases (hiff _).mp h1 with ⟨q, hq, hq2, h3, h4, h5, h6⟩
            exact ⟨q, List.mem_cons_of_mem _ hq, hq2, h3, h4, h5, h6⟩
        · rintro ⟨q, hq, hq2, h3, h4, h5, h6⟩
          rcases List.mem_cons.mp hq with h1 | h1
          · subst h1
            simp only at h3 h4 h5 h6
            rw [hgmin] at h4
            rw [hgmax] at h5
            injection h4 with h4
            injection h5 with h5
            subst h3; subst h4; subst h5; subst h6
            exact List.mem_cons_self _ _
          · exact List.mem_cons_of_mem _ ((hiff _).mpr ⟨q, h1, hq2, h3, h4, h5, h6⟩)

lemma gradient_ne_nil_of_event {m : MS α} {ts : SATransitionSystem α} {e : α}
    (h : ∃ t, t ∈ ts.transitions ∧ t.2.1 = e) :
    get_gradient_of_event e m ts ≠ [] := by
  rcases h with ⟨t, ht, hte⟩
  unfold get_gradient_of_event get_all_state_transitions
  intro h0
  have : t ∈ ts.transitions.filter (fun st => decide (st.2.1 = e)) :=
    List.mem_filter.mpr ⟨ht, by simp [hte]⟩
  rw [List.map_eq_nil_iff.mp h0] at this
  simp at this

lemma selector_eq_none_iff (l : List (α × Int × Int × Int)) :
    __get_event_gradient_for_expansion l = none ↔ l = [] := by
  cases l with
  | nil => simp [__get_event_gradient_for_expansion]
  | cons t rest =>
    simp only [__get_event_gradient_for_expansion]
    cases __get_event_gradient_for_expansion rest <;> simp

lemma selector_spec :
    ∀ (l : List (α × Int × Int × Int)) t, __get_event_gradient_for_expansion l = some t →
    (∀ u ∈ l, u.2.2.2.natAbs ≤ t.2.2.2.natAbs) ∧
    ∃ l1 l2, l = l1 ++ t :: l2 ∧ ∀ u ∈ l1, u.2.2.2.natAbs < t.2.2.2.natAbs := by
  intro l
  induction l with
  | nil =>
    intro t ht
    simp [__get_event_gradient_for_expansion] at ht
  | cons t0 rest ih =>
    intro t ht
    simp only [__get_event_gradient_for_expansion] at ht
    cases hrec : __get_event_gradient_for_expansion rest with
    | none =>
      rw [hrec] at ht
      injection ht with ht
      subst ht
      have hres : rest = [] := (selector_eq_none_iff rest).mp hrec
      subst hres
      refine ⟨?_, [], [], rfl, ?_⟩
      · intro u hu
        rcases List.mem_singleton.mp hu with rfl
        exact le_refl _
      · intro u hu
        simp at hu
    | some b =>
      rw [hrec] at ht
      injection ht with ht
      rcases ih b hrec with ⟨hle, l1, l2, heq, hlt⟩
      by_cases hc : t0.2.2.2.natAbs < b.2.2.2.natAbs
      · rw [if_pos hc] at ht
        subst ht
        refine ⟨?_, t0 :: l1, l2, by rw [heq]; rfl, ?_⟩
        · intro u hu
          rcases List.mem_cons.mp hu with h1 | h1
          · exact h1 ▸ le_of_lt hc
          · exact hle u h1
        · intro u hu
          rcases List.mem_cons.mp hu with h1 | h1
          · exact h1 ▸ hc
          · exact hlt u h1
      · rw [if_neg hc] at ht
        subst ht
        push_neg at hc
        refine ⟨?_, [], rest, rfl, ?_⟩
        · intro u hu
          rcases List.mem_cons.mp hu with h1 | h1
          · exact h1 ▸ le_refl _
          · exact le_trans (hle u h1) hc
        · intro u hu
          simp at hu

/-- C7: (a) under a transition system in which every event labels at least
one transition, `get_illegal_events` returns exactly the events whose
gradient list has at least two distinct values, each as
`(e, g_min, g_max, ⌊(g_min+g_max)/2⌋)`; (b) the expansion step selects from
such a list the first tuple with the maximal absolute fourth component. -/
theorem C7_illegal_events_and_selection :
    (∀ (m : MS α) (ts : SATransitionSystem α),
      (∀ e ∈ ts.events, ∃ t, t ∈ ts.transitions ∧ t.2.1 = e) →
      ∃ l, get_illegal_events m ts = some l ∧
        ∀ x : α × Int × Int × Int, x ∈ l ↔ x.1 ∈ ts.events ∧
          2 ≤ (get_gradient_of_event x.1 m ts).toFinset.card ∧
          list_min (get_gradient_of_event x.1 m ts) = some x.2.1 ∧
          list_max (get_gradient_of_event x.1 m ts) = some x.2.2.1 ∧
          x.2.2.2 = Int.fdiv (x.2.1 + x.2.2.1) 2) ∧
    (∀ (lst : List (α × Int × Int × Int)) t,
      __get_event_gradient_for_expansion lst = some t →
      (∀ u ∈ lst, u.2.2.2.natAbs ≤ t.2.2.2.natAbs) ∧
      ∃ l1 l2, lst = l1 ++ t :: l2 ∧ ∀ u ∈ l1, u.2.2.2.natAbs < t.2.2.2.natAbs) := by
  constructor
  · intro m ts hev
    have hperm : List.Perm (gradients_sorted (get_gradients_for_multisets m ts))
        (get_gradients_for_multisets m ts) := List.perm_insertionSort _ _
    have hne : ∀ p ∈ gradients_sorted (get_gradients_for_multisets m ts), p.2 ≠ [] := by
      intro p hp
      rcases List.mem_map.mp (hperm.mem_iff.mp hp) with ⟨e, he, rfl⟩
      exact gradient_ne_nil_of_event (hev e he)
    rcases illegal_events_go_spec _ hne with ⟨l, hl, hiff⟩
    refine ⟨l, hl, fun x => ?_⟩
    rw [hiff x]
    constructor
    · rintro ⟨p, hp, hcard, hx1, hmin, hmax, hbs⟩
      rcases List.mem_map.mp (hperm.mem_iff.mp hp) with ⟨e, he, hfe⟩
      rw [← hfe] at hcard hx1 hmin hmax
      simp only at hcard hx1 hmin hmax
      rw [hx1]
      have hpos : 0 < (get_gradient_of_event e m ts).toFinset.card := by
        have hnn : get_gradient_of_event e m ts ≠ [] :=
          gradient_ne_nil_of_event (hev e he)
        rcases List.exists_mem_of_ne_nil _ hnn with ⟨v, hv⟩
        exact Finset.card_pos.mpr ⟨v, List.mem_toFinset.mpr hv⟩
      refine ⟨he, by omega, hmin, hmax, hbs⟩
    · rintro ⟨he, hcard, hmin, hmax, hbs⟩
      refine ⟨(x.1, get_gradient_of_event x.1 m ts),
        hperm.mem_iff.mpr (List.mem_map.mpr ⟨x.1, he, rfl⟩), ?_, rfl, hmin, hmax, hbs⟩
      show (get_gradient_of_event x.1 m ts).toFinset.card ≠ 1
      omega
  · exact selector_spec

/-- Witness for C7: the marking `{1:0, 2:1, 3:0, 4:0}` on the diamond LTS
makes event 12 illegal with bounds `[-1, 0]` and midpoint `-1`, and the
selector picks the first of two tied tuples. -/
theorem C7_witness :
    ((∀ e ∈ tsDiamond.events, ∃ t, t ∈ tsDiamond.transitions ∧ t.2.1 = e) ∧
      (∃ l, get_illegal_events [((1 : Nat), 0), (2, 1), (3, 0), (4, 0)] tsDiamond =
          some l ∧
        ∀ x : Nat × Int × Int × Int, x ∈ l ↔ x.1 ∈ tsDiamond.events ∧
          2 ≤ (get_gradient_of_event x.1 [((1 : Nat), 0), (2, 1), (3, 0), (4, 0)]
            tsDiamond).toFinset.card ∧
          list_min (get_gradient_of_event x.1 [((1 : Nat), 0), (2, 1), (3, 0), (4, 0)]
            tsDiamond) = some x.2.1 ∧
          list_max (get_gradient_of_event x.1 [((1 : Nat), 0), (2, 1), (3, 0), (4, 0)]
            tsDiamond) = some x.2.2.1 ∧
          x.2.2.2 = Int.fdiv (x.2.1 + x.2.2.1) 2)) ∧
    ((∀ u ∈ [((12 : Nat), (-1 : Int), (0 : Int), (-1 : Int)), (11, 0, 2, 1)],
        u.2.2.2.natAbs ≤ ((12 : Nat), (-1 : Int), (0 : Int), (-1 : Int)).2.2.2.natAbs) ∧
      ∃ l1 l2, [((12 : Nat), (-1 : Int), (0 : Int), (-1 : Int)), (11, 0, 2, 1)] =
          l1 ++ ((12 : Nat), (-1 : Int), (0 : Int), (-1 : Int)) :: l2 ∧
        ∀ u ∈ l1,
          u.2.2.2.natAbs < ((12 : Nat), (-1 : Int), (0 : Int), (-1 : Int)).2.2.2.natAbs) :=
  ⟨⟨by decide,
    C7_illegal_events_and_selection.1 [((1 : Nat), 0), (2, 1), (3, 0), (4, 0)] tsDiamond
      (by decide)⟩,
   C7_illegal_events_and_selection.2
     [((12 : Nat), (-1 : Int), (0 : Int), (-1 : Int)), (11, 0, 2, 1)]
     ((12 : Nat), (-1 : Int), (0 : Int), (-1 : Int)) (by rfl)⟩

/-! The search driver: invariants for C1, C2 and C5. -/

/-- Key invariant of every marking the v1 driver manipulates: pairwise
distinct keys whose set is the state set. -/
def KeyOK (ts : SATransitionSystem α) (m : MS α) : Prop :=
  (keysOf m).Nodup ∧ ∀ s, s ∈ keysOf m ↔ s ∈ ts.states

/-- Invariant of every marking in the driver's discovered list: a region
whose multiplicities are bounded by `k`. -/
def RegOK (k : Int) (ts : SATransitionSystem α) (m : MS α) : Prop :=
  is_region m ts = true ∧ ∀ v ∈ dict_values m, (v : Int) ≤ k

lemma keysOf_dictSet (m : MS α) (k : α) (v : Nat) :
    keysOf (dictSet m k v) = keysOf m := by
  unfold dictSet keysOf
  rw [List.map_map]
  apply List.map_congr_left
  intro p _
  by_cases h : p.1 = k <;> simp [h]

lemma dictSet_values_le {m : MS α} {k : α} (h : ∀ p ∈ m, p.2 ≤ 1) :
    ∀ p ∈ dictSet m k 1, p.2 ≤ 1 := by
  intro p hp
  rcases List.mem_map.mp hp with ⟨q, hq, hq1⟩
  by_cases hqk : q.1 = k
  · rw [if_pos hqk] at hq1
    rw [← hq1]
  · rw [if_neg hqk] at hq1
    exact hq1 ▸ h q hq

lemma fold_fill_values_le (l : List (α × α × α)) (e : α) (sel : (α × α × α) → α) :
    ∀ (acc : MS α), (∀ p ∈ acc, p.2 ≤ 1) →
    ∀ p ∈ l.foldl (fun acc st => if st.2.1 = e then dictSet acc (sel st) 1 else acc) acc,
      p.2 ≤ 1 := by
  induction l with
  | nil =>
    intro acc hacc
    exact hacc
  | cons t rest ih =>
    intro acc hacc
    simp only [List.foldl_cons]
    by_cases ht : t.2.1 = e
    · rw [if_pos ht]
      exact ih _ (dictSet_values_le hacc)
    · rw [if_neg ht]
      exact ih _ hacc

lemma fold_fill_keysOf (l : List (α × α × α)) (e : α) (sel : (α × α × α) → α) :
    ∀ (acc : MS α),
    keysOf (l.foldl
      (fun acc st => if st.2.1 = e then dictSet acc (sel st) 1 else acc) acc) =
      keysOf acc := by
  induction l with
  | nil =>
    intro acc
    rfl
  | cons t rest ih =>
    intro acc
    simp only [List.foldl_cons]
    by_cases ht : t.2.1 = e
    · rw [if_pos ht, ih, keysOf_dictSet]
    · rw [if_neg ht, ih]

lemma excitation_set_spec {e : α} {ts : SATransitionSystem α} {c : MS α}
    (h : get_excitation_set_by_event e ts = some c) :
    (∀ p ∈ c, p.2 ≤ 1) ∧ List.Perm (keysOf c) ts.states := by
  unfold get_excitation_set_by_event at h
  by_cases he : decide (e ∈ ts.events) = true
  · rw [if_pos he] at h
    injection h with h
    subst h
    have hinit : ∀ p ∈ ts.states.map (fun s => (s, 0)), Prod.snd p ≤ 1 := by
      intro p hp
      rcases List.mem_map.mp hp with ⟨s, _, rfl⟩
      exact Nat.zero_le 1
    constructor
    · intro p hp
      exact fold_fill_values_le _ e (fun st => st.1) _ hinit p (mem_dict_sorted.mp hp)
    · have hkeys : keysOf ((get_all_state_transitions ts).foldl
          (fun acc st => if st.2.1 = e then dictSet acc st.1 1 else acc)
          (ts.states.map (fun s => (s, 0)))) = ts.states := by
        rw [fold_fill_keysOf _ e (fun st => st.1)]
        show List.map Prod.fst (ts.states.map (fun s => (s, 0))) = ts.states
        rw [List.map_map]
        have hfun : (Prod.fst ∘ fun s : α => (s, (0 : Nat))) = id := rfl
        rw [hfun, List.map_id]
      have hp := keysOf_dict_sorted_perm ((get_all_state_transitions ts).foldl
          (fun acc st => if st.2.1 = e then dictSet acc st.1 1 else acc)
          (ts.states.map (fun s => (s, 0))))
      rw [hkeys] at hp
      exact hp
  · rw [if_neg he] at h
    exact absurd h (by simp)

lemma switching_set_spec {e : α} {ts : SATransitionSystem α} {c : MS α}
    (h : get_switching_set_by_event e ts = some c) :
    (∀ p ∈ c, p.2 ≤ 1) ∧ List.Perm (keysOf c) ts.states := by
  unfold get_switching_set_by_event at h
  by_cases he : decide (e ∈ ts.events) = true
  · rw [if_pos he] at h
    injection h with h
    subst h
    have hinit : ∀ p ∈ ts.states.map (fun s => (s, 0)), Prod.snd p ≤ 1 := by
      intro p hp
      rcases List.mem_map.mp hp with ⟨s, _, rfl⟩
      exact Nat.zero_le 1
    constructor
    · intro p hp
      exact fold_fill_values_le _ e (fun st => st.2.2) _ hinit p (mem_dict_sorted.mp hp)
    · have hkeys : keysOf ((get_all_state_transitions ts).foldl
          (fun acc st => if st.2.1 = e then dictSet acc st.2.2 1 else acc)
          (ts.states.map (fun s => (s, 0)))) = ts.states := by
        rw [fold_fill_keysOf _ e (fun st => st.2.2)]
        show List.map Prod.fst (ts.states.map (fun s => (s, 0))) = ts.states
        rw [List.map_map]
        have hfun : (Prod.fst ∘ fun s : α => (s, (0 : Nat))) = id := rfl
        rw [hfun, List.map_id]
      have hp := keysOf_dict_sorted_perm ((get_all_state_transitions ts).foldl
          (fun acc st => if st.2.1 = e then dictSet acc st.2.2 1 else acc)
          (ts.states.map (fun s => (s, 0))))
      rw [hkeys] at hp
      exact hp
  · rw [if_neg he] at h
    exact absurd h (by simp)

/-- Every seed candidate is an indicator-valued marking over the state
set. -/
lemma candidates_spec {ts : SATransitionSystem α} (hnd : ts.states.Nodup) :
    ∀ c ∈ get_candidates ts, (∀ p ∈ c, p.2 ≤ 1) ∧ KeyOK ts c := by
  intro c hc
  have hspec : (∀ p ∈ c, p.2 ≤ 1) ∧ List.Perm (keysOf c) ts.states := by
    rcases List.mem_append.mp hc with h | h
    · rcases List.mem_filterMap.mp h with ⟨e, _, he⟩
      exact excitation_set_spec he
    · rcases List.mem_filterMap.mp h with ⟨e, _, he⟩
      exact switching_set_spec he
  refine ⟨hspec.1, hspec.2.nodup_iff.mpr hnd, fun s => hspec.2.mem_iff⟩

lemma valid_candidate_true {k : Int} {m : MS α}
    (h : __is_valid_candidate k m = some true) :
    (∀ v ∈ dict_values m, (v : Int) ≤ k) ∧ is_trivial m = false := by
  unfold __is_valid_candidate at h
  rcases Option.map_eq_some'.mp h with ⟨p, hp, hf⟩
  rw [Bool.and_eq_true, decide_eq_true_eq, Bool.not_eq_true'] at hf
  unfold get_power_of_multiset at hp
  refine ⟨fun v hv => ?_, hf.2⟩
  have hvp : Int.ofNat v ≤ Int.ofNat p := Int.ofNat_le.mpr (list_max_le_of_mem hp hv)
  exact le_trans hvp hf.1

lemma process_candidate_spec {k : Int} {ts : SATransitionSystem α}
    {st st' : List (MS α) × List (ExpEntry α) × List (MS α)} {i : MS α}
    (hd : ∀ m ∈ st.1, RegOK k ts m ∧ KeyOK ts m)
    (hr : ∀ m ∈ st.2.2, KeyOK ts m)
    (hi : KeyOK ts i)
    (h : __process_candidate k ts st i = some st') :
    (∀ m ∈ st'.1, RegOK k ts m ∧ KeyOK ts m) ∧ (∀ m ∈ st'.2.2, KeyOK ts m) := by
  unfold __process_candidate at h
  by_cases h1 : __explored_contains_vals st.2.1 (dict_values i) = true
  · rw [if_pos h1] at h
    injection h with h
    subst h
    exact ⟨hd, hr⟩
  · rw [if_neg h1] at h
    cases hv : __is_valid_candidate k i with
    | none =>
      rw [hv] at h
      simp at h
    | some b =>
      rw [hv] at h
      cases b with
      | true =>
        by_cases hreg : is_region i ts = true
        · rw [if_pos hreg] at h
          injection h with h
          subst h
          refine ⟨fun m hm => ?_, hr⟩
          rcases List.mem_append.mp hm with hm | hm
          · exact hd m hm
          · rcases List.mem_singleton.mp hm with rfl
            exact ⟨⟨hreg, (valid_candidate_true hv).1⟩, hi⟩
        · rw [if_neg hreg] at h
          injection h with h
          subst h
          refine ⟨hd, fun m hm => ?_⟩
          rcases List.mem_append.mp hm with hm | hm
          · exact hr m hm
          · rcases List.mem_singleton.mp hm with rfl
            exact hi
      | false =>
        injection h with h
        subst h
        exact ⟨hd, hr⟩

lemma KeyOK_of_expansion_by_g {g : Int} {e : α} {m r : MS α}
    {ts : SATransitionSystem α} (hm : (keysOf m).Nodup)
    (h : get_multiset_expansion_on_event_by_g g e m ts = Except.ok r) : KeyOK ts r := by
  rcases expansion_by_g_ok_inv h with ⟨hg, hr⟩
  subst hr
  refine ⟨?_, fun s => ?_⟩
  · rw [keysOf_map_valfun m (fun k v => v + (get_delta_g g m e k ts).toNat)]
    exact hm
  · rw [keysOf_map_valfun m (fun k v => v + (get_delta_g g m e k ts).toNat)]
    exact (keySetEq_true_iff _ _).mp hg s

lemma KeyOK_of_expansion_by_G {g : Int} {e : α} {m r : MS α}
    {ts : SATransitionSystem α} (hm : (keysOf m).Nodup)
    (h : get_multiset_expansion_on_event_by_G g e m ts = Except.ok r) : KeyOK ts r := by
  rcases expansion_by_G_ok_inv h with ⟨hg, hr⟩
  subst hr
  refine ⟨?_, fun s => ?_⟩
  · rw [keysOf_map_valfun m (fun k v => v + (get_delta_G g m e k ts).toNat)]
    exact hm
  · rw [keysOf_map_valfun m (fun k v => v + (get_delta_G g m e k ts).toNat)]
    exact (keySetEq_true_iff _ _).mp hg s

lemma multiset_expansion_spec :
    ∀ (fuel : Nat) (k : Int) (r : List (MS α)) (ts : SATransitionSystem α)
      (disc : List (MS α)) (expl : List (ExpEntry α)) (niter : Nat)
      (out : List (MS α) × List (ExpEntry α) × Nat),
    (∀ m ∈ disc, RegOK k ts m ∧ KeyOK ts m) →
    (∀ m ∈ r, KeyOK ts m) →
    multiset_expansion fuel k r ts disc expl niter = some out →
    ∀ m ∈ out.1, RegOK k ts m ∧ KeyOK ts m := by
  intro fuel
  induction fuel with
  | zero =>
    intro k r ts disc expl niter out hd hr h
    simp [multiset_expansion] at h
  | succ fuel' ih =>
    intro k r ts disc expl niter out hd hr h
    cases r with
    | nil =>
      simp only [multiset_expansion] at h
      injection h with h
      subst h
      exact hd
    | cons r0 rrest =>
      simp only [multiset_expansion] at h
      cases hpop : __pop_at (r0 :: rrest)
          (__first_arg_max ((r0 :: rrest).map (fun i => (dict_values i).sum))) with
      | none =>
        rw [hpop] at h
        exact Option.noConfusion h
      | some pr =>
        obtain ⟨r_hat, r_rest⟩ := pr
        rw [hpop] at h
        dsimp only at h
        have hhat : KeyOK ts r_hat := hr r_hat (pop_at_mem hpop)
        have hrest : ∀ m ∈ r_rest, KeyOK ts m :=
          fun m hm => hr m (pop_at_rest_mem hpop m hm)
        by_cases hexp : __explored_contains_vals expl (dict_values r_hat) = true
        · rw [if_pos hexp] at h
          exact ih k r_rest ts disc expl (niter + 1) out hd hrest h
        · rw [if_neg hexp] at h
          cases hill : get_illegal_events r_hat ts with
          | none =>
            rw [hill] at h
            exact Option.noConfusion h
          | some lst =>
            rw [hill] at h
            dsimp only at h
            cases hsel : __get_event_gradient_for_expansion lst with
            | none =>
              rw [hsel] at h
              exact Option.noConfusion h
            | some tup =>
              rw [hsel] at h
              dsimp only at h
              cases hex1 : get_multiset_expansion_on_event_by_g tup.2.2.2 tup.1 r_hat ts with
              | error msg =>
                rw [hex1] at h
                cases hex2 : get_multiset_expansion_on_event_by_G (tup.2.2.2 + 1) tup.1
                    r_hat ts with
                | error msg2 =>
                  rw [hex2] at h
                  exact Option.noConfusion h
                | ok r_2 =>
                  rw [hex2] at h
                  exact Option.noConfusion h
              | ok r_1 =>
                rw [hex1] at h
                cases hex2 : get_multiset_expansion_on_event_by_G (tup.2.2.2 + 1) tup.1
                    r_hat ts with
                | error msg2 =>
                  rw [hex2] at h
                  exact Option.noConfusion h
                | ok r_2 =>
                  rw [hex2] at h
                  dsimp only at h
                  cases hproc : (__process_candidate k ts
                      (disc, expl ++ [ExpEntry.vals (dict_values r_hat)], r_rest)
                      r_1).bind (fun st => __process_candidate k ts st r_2) with
                  | none =>
                    rw [hproc] at h
                    exact Option.noConfusion h
                  | some st2 =>
                    obtain ⟨d2, e2, rr2⟩ := st2
                    rw [hproc] at h
                    dsimp only at h
                    rcases Option.bind_eq_some.mp hproc with ⟨st1, hst1, hst2⟩
                    have h1 := process_candidate_spec hd hrest
                      (KeyOK_of_expansion_by_g hhat.1 hex1) hst1
                    have h2 := process_candidate_spec h1.1 h1.2
                      (KeyOK_of_expansion_by_G hhat.1 hex2) hst2
                    exact ih k rr2 ts d2 e2 (niter + 1) out h2.1 h2.2 h

lemma minimality_filter_mem {D : List (MS α)} {m : MS α}
    (h : m ∈ __minimality_filter D) : m ∈ D := by
  unfold __minimality_filter at h
  have := remove_duplicates_subset _ m h
  exact (List.mem_filter.mp this).1

lemma minimality_filter_no_subset {D : List (MS α)} {r e : MS α}
    (hr : r ∈ __minimality_filter D) (he : e ∈ D) (hne : dictEqB e r = false) :
    is_subset e r = false := by
  unfold __minimality_filter at hr
  have hmem := remove_duplicates_subset _ r hr
  have hcond := (List.mem_filter.mp hmem).2
  rw [Bool.not_eq_true'] at hcond
  by_cases hs : is_subset e r = true
  · exfalso
    have hsub : __has_subset_of_list r (D.filter (fun x => !(dictEqB x r))) = true := by
      unfold __has_subset_of_list
      rw [List.any_eq_true]
      exact ⟨e, List.mem_filter.mpr ⟨he, by rw [hne]; rfl⟩, hs⟩
    rw [hsub] at hcond
    exact Bool.noConfusion hcond
  · simpa using hs

lemma minimality_filter_pairwise (D : List (MS α)) :
    List.Pairwise (fun x y => dict_sorted x ≠ dict_sorted y) (__minimality_filter D) :=
  remove_duplicates_pairwise _

lemma v1_loop_spec :
    ∀ (fuel : Nat) (k : Int) (ts : SATransitionSystem α)
      (candidates disc : List (MS α)) (expl : List (ExpEntry α)) (iters : Nat)
      (out : List (MS α) × List (ExpEntry α) × Nat),
    (1 : Int) ≤ k →
    (∀ c ∈ candidates, (∀ p ∈ c, p.2 ≤ 1) ∧ KeyOK ts c) →
    (∀ m ∈ disc, RegOK k ts m ∧ KeyOK ts m) →
    generate_all_minimal_regions_v1_loop fuel k ts candidates disc expl iters =
      some out →
    ∃ D, (∀ m ∈ D, RegOK k ts m ∧ KeyOK ts m) ∧ out.1 = __minimality_filter D := by
  intro fuel
  induction fuel with
  | zero =>
    intro k ts candidates disc expl iters out hk hc hd h
    simp [generate_all_minimal_regions_v1_loop] at h
  | succ fuel' ih =>
    intro k ts candidates disc expl iters out hk hc hd h
    cases candidates with
    | nil =>
      simp only [generate_all_minimal_regions_v1_loop] at h
      injection h with h
      subst h
      exact ⟨disc, hd, rfl⟩
    | cons c0 crest =>
      simp only [generate_all_minimal_regions_v1_loop] at h
      cases hpop : __pop_at (c0 :: crest)
          (__first_arg_min ((c0 :: crest).map (fun c => (dict_values c).sum))) with
      | none =>
        rw [hpop] at h
        exact Option.noConfusion h
      | some pr =>
        obtain ⟨r_tilde, rest⟩ := pr
        rw [hpop] at h
        dsimp only at h
        have htil := hc r_tilde (pop_at_mem hpop)
        have hrest : ∀ c ∈ rest, (∀ p ∈ c, p.2 ≤ 1) ∧ KeyOK ts c :=
          fun c hcm => hc c (pop_at_rest_mem hpop c hcm)
        by_cases hreg : is_region r_tilde ts = true
        · rw [if_pos hreg] at h
          by_cases hin : (disc.any (fun d => dictEqB d r_tilde)) = true
          · rw [if_pos hin] at h
            exact ih k ts rest disc expl (iters + 1) out hk hrest hd h
          · rw [if_neg hin] at h
            have hd2 : ∀ m ∈ disc ++ [r_tilde], RegOK k ts m ∧ KeyOK ts m := by
              intro m hm
              rcases List.mem_append.mp hm with hm | hm
              · exact hd m hm
              · rcases List.mem_singleton.mp hm with rfl
                refine ⟨⟨hreg, fun v hv => ?_⟩, htil.2⟩
                rcases List.mem_map.mp hv with ⟨p, hp, rfl⟩
                have hp1 : p.2 ≤ 1 := htil.1 p hp
                have hp1i : (p.2 : Int) ≤ (1 : Int) := by exact_mod_cast hp1
                exact le_trans hp1i hk
            exact ih k ts rest (disc ++ [r_tilde]) (expl ++ [ExpEntry.dict r_tilde])
              (iters + 1) out hk hrest hd2 h
        · rw [if_neg hreg] at h
          cases hexp : multiset_expansion fuel' k [r_tilde] ts disc expl iters with
          | none =>
            rw [hexp] at h
            exact Option.noConfusion h
          | some den =>
            obtain ⟨d, e, n⟩ := den
            rw [hexp] at h
            dsimp only at h
            have hrl : ∀ m ∈ [r_tilde], KeyOK ts m := by
              intro m hm
              rcases List.mem_singleton.mp hm with rfl
              exact htil.2
            have hd2 : ∀ m ∈ d, RegOK k ts m ∧ KeyOK ts m :=
              multiset_expansion_spec fuel' k [r_tilde] ts disc expl iters (d, e, n)
                hd hrl hexp
            exact ih k ts rest d e n out hk hrest hd2 h

lemma is_subset_true_of_pointwise {a b : MS α}
    (hmatch : keysMatch a b = true) (h : ∀ p ∈ a, p.2 ≤ mget b p.1) :
    is_subset a b = true := by
  unfold is_subset is_subset_body
  rw [if_pos hmatch]
  dsimp only
  rw [List.all_eq_true]
  intro p hp
  exact decide_eq_true (h p hp)

lemma v1_candidates_spec {ts : SATransitionSystem α} (hnd : ts.states.Nodup) :
    ∀ c ∈ __remove_supersets (__remove_duplicates (get_candidates ts)),
      (∀ p ∈ c, p.2 ≤ 1) ∧ KeyOK ts c := by
  intro c hcm
  have h1 : c ∈ __remove_duplicates (get_candidates ts) :=
    (List.mem_filter.mp hcm).1
  exact candidates_spec hnd c (remove_duplicates_subset _ c h1)

/-- C1 counterexample: on the single self-loop LTS with `k = 1 > 0` the
driver returns the marking `{s1: 1}`, which is trivial (every multiplicity
is at least 1): the `¬is_trivial` part of the claim fails for seed regions,
which the outer loop adds to the discovered list without a validity
check. -/
theorem C1_counterexample :
    (0 : Int) < 1 ∧
    generate_all_minimal_regions_v1 5 1 tsSelfloop =
      some ([[(1, 1)]], [ExpEntry.dict [(1, 1)]], 2) ∧
    is_trivial [((1 : Nat), 1)] = true :=
  ⟨by decide, by decide, by decide⟩

/-- C1 (amended): for `k > 0`, every marking in the returned regions list
satisfies `is_region` and has power at most `k`; the non-triviality part of
the claim fails, because a seed (excitation/switching) marking that is
itself a region is returned without the `¬is_trivial` check. -/
theorem C1_regions_are_bounded_regions :
    ∀ (fuel : Nat) (k : Int) (ts : SATransitionSystem α), 0 < k → ts.states.Nodup →
    ∀ out, generate_all_minimal_regions_v1 fuel k ts = some out →
    ∀ m ∈ out.1, is_region m ts = true ∧
      ∀ p, get_power_of_multiset m = some p → (p : Int) ≤ k := by
  intro fuel k ts hk hnd out h m hm
  unfold generate_all_minimal_regions_v1 at h
  rcases v1_loop_spec fuel k ts _ [] [] 0 out (by omega) (v1_candidates_spec hnd)
    (by intro m hm0; simp at hm0) h with ⟨D, hD, hout⟩
  rw [hout] at hm
  rcases hD m (minimality_filter_mem hm) with ⟨⟨hreg, hb⟩, _⟩
  refine ⟨hreg, fun p hp => ?_⟩
  unfold get_power_of_multiset at hp
  exact hb p (list_max_mem hp)

/-- Witness for C1 on the self-loop run. -/
theorem C1_witness :
    ((0 : Int) < 1 ∧ tsSelfloop.states.Nodup ∧
      generate_all_minimal_regions_v1 5 1 tsSelfloop =
        some ([[(1, 1)]], [ExpEntry.dict [(1, 1)]], 2) ∧
      [((1 : Nat), 1)] ∈ [[((1 : Nat), 1)]]) ∧
    (is_region [((1 : Nat), 1)] tsSelfloop = true ∧
      ∀ p, get_power_of_multiset [((1 : Nat), 1)] = some p → (p : Int) ≤ 1) :=
  ⟨⟨by decide, by decide, by decide, by decide⟩,
    C1_regions_are_bounded_regions 5 1 tsSelfloop (by decide) (by decide)
      ([[(1, 1)]], [ExpEntry.dict [(1, 1)]], 2) (by decide) [((1 : Nat), 1)] (by decide)⟩

/-- C2: the returned regions list has no two pointwise-equal entries and no
entry pointwise dominates another: distinct positions hold dict-unequal
markings, and the marking at one position is never pointwise below the
marking at another. -/
theorem C2_no_duplicates_no_containment :
    ∀ (fuel : Nat) (k : Int) (ts : SATransitionSystem α), 0 < k → ts.states.Nodup →
    ∀ out, generate_all_minimal_regions_v1 fuel k ts = some out →
    ∀ (i j : Nat) (hi : i < out.1.length) (hj : j < out.1.length), i ≠ j →
      dictEqB (out.1.get ⟨i, hi⟩) (out.1.get ⟨j, hj⟩) = false ∧
      ¬(∀ s ∈ ts.states, mget (out.1.get ⟨j, hj⟩) s ≤ mget (out.1.get ⟨i, hi⟩) s) := by
  intro fuel k ts hk hnd out h
  unfold generate_all_minimal_regions_v1 at h
  rcases v1_loop_spec fuel k ts _ [] [] 0 out (by omega) (v1_candidates_spec hnd)
    (by intro m hm0; simp at hm0) h with ⟨D, hD, hout⟩
  have hpair : List.Pairwise (fun x y => dict_sorted x ≠ dict_sorted y) out.1 := by
    rw [hout]
    exact minimality_filter_pairwise D
  have hne : ∀ (i j : Nat) (hi : i < out.1.length) (hj : j < out.1.length), i ≠ j →
      dictEqB (out.1.get ⟨i, hi⟩) (out.1.get ⟨j, hj⟩) = false := by
    intro i j hi hj hij
    by_contra hcon
    rw [Bool.not_eq_false] at hcon
    have hmi : out.1.get ⟨i, hi⟩ ∈ __minimality_filter D := by
      rw [← hout]
      exact List.get_mem _ _ _
    have hmj : out.1.get ⟨j, hj⟩ ∈ __minimality_filter D := by
      rw [← hout]
      exact List.get_mem _ _ _
    have hKi := (hD _ (minimality_filter_mem hmi)).2.1
    have hKj := (hD _ (minimality_filter_mem hmj)).2.1
    have hsorted : dict_sorted (out.1.get ⟨i, hi⟩) = dict_sorted (out.1.get ⟨j, hj⟩) :=
      dict_sorted_eq_of_perm (perm_of_dictEqB hKi hKj hcon)
    rcases Nat.lt_or_ge i j with hlt | hge
    · exact (List.pairwise_iff_get.mp hpair) ⟨i, hi⟩ ⟨j, hj⟩ (Fin.mk_lt_mk.mpr hlt)
        hsorted
    · have hlt2 : j < i := lt_of_le_of_ne hge (Ne.symm hij)
      exact (List.pairwise_iff_get.mp hpair) ⟨j, hj⟩ ⟨i, hi⟩ (Fin.mk_lt_mk.mpr hlt2)
        hsorted.symm
  intro i j hi hj hij
  refine ⟨hne i j hi hj hij, fun hall => ?_⟩
  have hmi : out.1.get ⟨i, hi⟩ ∈ __minimality_filter D := by
    rw [← hout]
    exact List.get_mem _ _ _
  have hmj : out.1.get ⟨j, hj⟩ ∈ __minimality_filter D := by
    rw [← hout]
    exact List.get_mem _ _ _
  have hDi := hD _ (minimality_filter_mem hmi)
  have hDj := hD _ (minimality_filter_mem hmj)
  have hmatch : keysMatch (out.1.get ⟨j, hj⟩) (out.1.get ⟨i, hi⟩) = true := by
    rw [keysMatch_true_iff]
    intro x
    rw [hDj.2.2 x, hDi.2.2 x]
  have hsub : is_subset (out.1.get ⟨j, hj⟩) (out.1.get ⟨i, hi⟩) = true := by
    apply is_subset_true_of_pointwise hmatch
    intro p hp
    have hkj : p.1 ∈ keysOf (out.1.get ⟨j, hj⟩) := List.mem_map.mpr ⟨p, hp, rfl⟩
    have hps : p.1 ∈ ts.states := (hDj.2.2 p.1).mp hkj
    have hv : mget (out.1.get ⟨j, hj⟩) p.1 = p.2 :=
      mget_eq_of_mem _ hDj.2.1 (show (p.1, p.2) ∈ _ from hp)
    rw [← hv]
    exact hall p.1 hps
  have hfalse := minimality_filter_no_subset hmi
    (minimality_filter_mem hmj) (hne j i hj hi (Ne.symm hij))
  rw [hsub] at hfalse
  exact Bool.noConfusion hfalse

/-- The result of the v1 driver on the diamond LTS with `k = 1` and enough
fuel. -/
def diamondRes : List (MS Nat) × List (ExpEntry Nat) × Nat :=
  ([[(1, 1), (2, 0), (3, 0), (4, 0)], [(1, 0), (2, 1), (3, 1), (4, 0)],
    [(1, 0), (2, 0), (3, 0), (4, 1)]],
   [ExpEntry.dict [(1, 1), (2, 0), (3, 0), (4, 0)],
    ExpEntry.vals [0, 1, 0, 0],
    ExpEntry.vals [0, 1, 1, 0],
    ExpEntry.vals [0, 1, 0, 1],
    ExpEntry.vals [0, 1, 1, 1],
    ExpEntry.vals [0, 1, 0, 2],
    ExpEntry.vals [0, 0, 1, 0],
    ExpEntry.vals [0, 0, 1, 1],
    ExpEntry.vals [0, 0, 1, 2],
    ExpEntry.dict [(1, 0), (2, 0), (3, 0), (4, 1)]],
   10)

/-- Witness for C2 on the diamond run, positions 0 and 1. -/
theorem C2_witness :
    ((0 : Int) < 1 ∧ tsDiamond.states.Nodup ∧
      generate_all_minimal_regions_v1 30 1 tsDiamond = some diamondRes ∧
      (0 : Nat) ≠ 1) ∧
    (dictEqB [((1 : Nat), 1), (2, 0), (3, 0), (4, 0)]
        [(1, 0), (2, 1), (3, 1), (4, 0)] = false ∧
      ¬(∀ s ∈ tsDiamond.states, mget [((1 : Nat), 0), (2, 1), (3, 1), (4, 0)] s ≤
          mget [((1 : Nat), 1), (2, 0), (3, 0), (4, 0)] s)) :=
  ⟨⟨by decide, by decide, by decide, by decide⟩,
    C2_no_duplicates_no_containment 30 1 tsDiamond (by decide) (by decide) diamondRes
      (by decide) 0 1 (by decide) (by decide) (by decide)⟩

/-- C5 counterexample: with `k = 0 ≤ 0` the synthesis entry point does not
reject `k`; it runs the full search on the self-loop LTS, performs two
iterations and returns a normal result holding a region of power 1. -/
theorem C5_counterexample :
    (0 : Int) ≤ 0 ∧
    generate_all_minimal_regions_v1 5 0 tsSelfloop =
      some ([[(1, 1)]], [ExpEntry.dict [(1, 1)]], 2) :=
  ⟨by decide, by decide⟩

/-- C5 (amended): `generate_all_minimal_regions_v1` performs no validation
of `k` at entry: `k` is only read inside the expansion subroutine, so for
every `k ≤ 0` the self-loop synthesis runs the search and returns the same
normal result it returns for a positive `k`; no diagnostic is raised and no
rejection happens before the search. -/
theorem C5_no_invalid_k_rejection :
    ∀ k : Int, k ≤ 0 →
    generate_all_minimal_regions_v1 5 k tsSelfloop =
      some ([[(1, 1)]], [ExpEntry.dict [(1, 1)]], 2) := by
  intro k _
  rfl

/-- Witness for C5 at `k = 0`. -/
theorem C5_witness :
    (0 : Int) ≤ 0 ∧
    generate_all_minimal_regions_v1 5 0 tsSelfloop =
      some ([[(1, 1)]], [ExpEntry.dict [(1, 1)]], 2) ∧
    generate_all_minimal_regions_v1 5 1 tsSelfloop =
      some ([[(1, 1)]], [ExpEntry.dict [(1, 1)]], 2) :=
  ⟨by decide, C5_no_invalid_k_rejection 0 (by decide), by decide⟩

end SAPN
